import Mathlib

/-!
A verification development for `src/lib/module-info.ts` of the
`types-publisher` repository: the reference-graph resolution
(`allReferencedFiles`), the module/global classification (`getModuleInfo`,
`sourceFileExportsSomething`, `properModuleName`, `isValueNamespace`), and
the test-dependency analyzer (`getTestDependencies`).

The TypeScript code is embedded shallowly:
* parsed source files become a `FileData` record (top-level statements,
  path-reference directive targets, type-reference directive targets, and
  the parser's external-module flag), matching the syntax-tree surface the
  code consumes from the TypeScript parser;
* the file system together with the parser is an association list from
  relative path to parsed `FileData`; a read failure (missing file, or the
  byte-order-mark rejection of `readFileAndThrowOnBOM`) is a lookup miss;
* thrown exceptions become `Except ErrInfo`; the `console.error` context
  report of `readFileAndReportErrors` is modelled as a note attached to the
  propagated error, so that the reported context is part of the observable
  outcome;
* the concurrent recursion of `allReferencedFiles` (`Promise.all` over the
  references of each file) is serialized into a depth-first worklist; the
  result map and dedup set are order-independent for successful runs, which
  is what the theorems below are about; termination of the source's
  seen-set-guarded recursion is made explicit through a fuel parameter
  sized by a computable bound that the proofs show is never exhausted.
-/

/-! ## Errors -/

/-- The distinct failure modes of the module: each `throw` site of the
source gets one tag. `outOfFuel` is the artefact of the explicit fuel in
the traversal model; the termination theorem shows it is never produced. -/
inductive ErrKind where
  | readError
  | illegalParentReference
  | windowsSlash
  | badImportEquals
  | typeError
  | shorthandAmbientModule
  | unrecognizedAmbientStatement
  | assertFailed
  | testPathReference
  | redundantTestReference
  | testSelfReference
  | outOfFuel
  deriving DecidableEq, Repr

/-- A propagated failure: its kind, its message, and the contextual notes
written to the error console while it propagated (see
`readFileAndReportErrors`). -/
structure ErrInfo where
  kind : ErrKind
  msg : String
  notes : List String := []
  deriving DecidableEq, Repr

/-! ## Path and string utilities

`joinPaths`, `normalizeSlashes`, `hasWindowsSlashes` and `sort` live in
`src/util/util.ts`, which is not part of the sources here; they are
modelled from the spec (forward-slash path algebra, separator
normalization, sorted presentation at the boundary).  `path.basename`,
`path.dirname` and `path.normalize` are the Node.js posix path functions,
modelled for the relative forward-slash paths this module works with.

The primitive string operations (prefix/suffix tests, splitting on the
separator, slicing) are implemented over the character list of the
string, so that every definition of this development evaluates inside the
kernel on concrete inputs. -/

/-- `String.startsWith`, over the character list. -/
def strStartsWith (s t : String) : Bool :=
  t.data.isPrefixOf s.data

/-- `String.endsWith`, over the character list. -/
def strEndsWith (s t : String) : Bool :=
  t.data.reverse.isPrefixOf s.data.reverse

/-- JavaScript `slice(0, n)` (keep the first `n` characters). -/
def strTake (s : String) (n : Nat) : String :=
  String.mk (s.data.take n)

/-- Drop the last `n` characters. -/
def strDropRight (s : String) (n : Nat) : String :=
  String.mk (s.data.take (s.data.length - n))

/-- Split at every `/` (the posix separator), like `String.splitOn "/"`. -/
def splitSlashAux : List Char → List Char → List (List Char)
  | acc, [] => [acc.reverse]
  | acc, c :: cs =>
    if c = '/' then acc.reverse :: splitSlashAux [] cs
    else splitSlashAux (c :: acc) cs

/-- The `/`-separated segments of a path. -/
def pathSegments (p : String) : List String :=
  (splitSlashAux [] p.data).map String.mk

/-- Join strings with a separator (`String.intercalate`). -/
def strIntercalate (sep : String) : List String → String
  | [] => ""
  | [s] => s
  | s :: rest => s ++ sep ++ strIntercalate sep rest

/-- Modelled from the spec: `joinPaths` of `src/util/util.ts` joins path
segments with a forward slash. -/
def joinPaths (a b : String) : String :=
  a ++ "/" ++ b

/-- Modelled from the spec: `normalizeSlashes` of `src/util/util.ts`
rewrites Windows separators to forward slashes. -/
def normalizeSlashes (path : String) : String :=
  String.mk (path.data.map (fun c => if c = '\\' then '/' else c))

/-- Modelled from the spec: `hasWindowsSlashes` of `src/util/util.ts`
detects a backslash separator. -/
def hasWindowsSlashes (path : String) : Bool :=
  path.data.any (fun c => c = '\\')

/-- One step of posix path normalization: fold the segments, dropping
empty and `.` segments and cancelling `..` against the last real segment
kept so far (a leading run of `..` survives). The accumulator holds the
kept segments in reverse. -/
def normalizeSegs : List String → List String → List String
  | stack, [] => stack.reverse
  | stack, p :: ps =>
    if p = "" ∨ p = "." then normalizeSegs stack ps
    else if p = ".." then
      match stack with
      | [] => normalizeSegs [".."] ps
      | top :: rest =>
        if top = ".." then normalizeSegs (p :: top :: rest) ps
        else normalizeSegs rest ps
    else normalizeSegs (p :: stack) ps

/-- `path.normalize` of Node.js (posix, relative paths): resolve `.` and
`..` segments, collapse duplicate slashes, keep a trailing slash, return
`.` for an empty result. -/
def pathNormalize (p : String) : String :=
  let s := strIntercalate ("/") (normalizeSegs [] (pathSegments p))
  if s = "" then (if strEndsWith p ("/") then "./" else ".")
  else if strEndsWith p ("/") then s ++ "/" else s

/-- `path.basename` of Node.js (posix) on the relative forward-slash
paths used here: the last nonempty path segment. -/
def pathBasename (p : String) : String :=
  ((pathSegments p).filter (fun seg => seg ≠ "")).getLastD ""

/-- `path.dirname` of Node.js (posix) on the relative forward-slash paths
used here: the path with its last nonempty segment removed, `.` when
nothing remains. -/
def pathDirname (p : String) : String :=
  match ((pathSegments p).filter (fun seg => seg ≠ "")).dropLast with
  | [] => "."
  | parts => strIntercalate ("/") parts

/-- `path.join` of Node.js (posix): join, then normalize. Only used for
the message paths of `getTestDependencies`. -/
def pathJoin (a b : String) : String :=
  pathNormalize (joinPaths a b)

/-- Lexicographic order on character lists (codepoint order, the default
JavaScript string comparison). -/
def lexLe : List Char → List Char → Bool
  | [], _ => true
  | _ :: _, [] => false
  | a :: as, b :: bs =>
    if a = b then lexLe as bs else decide (a < b)

/-- Insert into a sorted list of strings (codepoint order). -/
def insertSorted (x : String) : List String → List String
  | [] => [x]
  | y :: ys => if lexLe x.data y.data then x :: y :: ys else y :: insertSorted x ys

/-- Modelled from the spec: `sort` of `src/util/util.ts`, the sorted
presentation of a string collection at the output boundary. -/
def sortStrings (l : List String) : List String :=
  l.foldr insertSorted []

/-- JavaScript `Set.add` on the insertion-ordered sets of the source:
append when not yet present. -/
def setAdd (l : List String) (x : String) : List String :=
  if x ∈ l then l else l ++ [x]

/-! ## The syntax-tree surface

The statement kinds `module-info.ts` inspects, with exactly the fields it
reads.  Kinds it switches past without a case keep only a kind name
(`otherStatement`).  The recursive positions (a namespace body) use the
flat mutual types `OptModuleBody`/`ModuleBody`/`StatementList` so that all
recursion below is structural. -/

/-- The name of a `module`/`namespace` declaration: a plain identifier or
a string literal. -/
inductive ModuleName where
  | ident (text : String)
  | strLit (text : String)
  deriving DecidableEq, Repr

/-- An expression position the code checks for a string literal (a module
specifier, or the expression of an external module reference). -/
inductive ExprKind where
  | strLit (text : String)
  | otherExpr
  deriving DecidableEq, Repr

/-- The `moduleReference` of an `import ... =` declaration. -/
inductive ModuleRef where
  | externalModuleRef (expression : Option ExprKind)
  | qualifiedRef
  deriving DecidableEq, Repr

/-- The binding name of one variable declaration: a plain identifier or a
destructuring pattern. -/
inductive VarDeclName where
  | identName (text : String)
  | patternName
  deriving DecidableEq, Repr

mutual

/-- A top-level or namespace-body statement, tagged the way
`module-info.ts` switches on `node.kind`. -/
inductive Statement where
  | importDecl (moduleSpecifier : Option ExprKind)
  | exportDecl (moduleSpecifier : Option ExprKind)
  | importEquals (moduleReference : ModuleRef)
  | moduleDecl (d : ModuleDeclaration)
  | variableStatement (declarations : List VarDeclName)
  | enumDecl (name : Option String)
  | classDecl (name : Option String)
  | functionDecl (name : Option String)
  | interfaceDecl
  | typeAliasDecl
  | namespaceExportDecl (name : String)
  | otherStatement (kindName : String)

/-- An ambient `module`/`namespace` declaration: its name and (optional)
body. -/
inductive ModuleDeclaration where
  | mk (name : ModuleName) (body : OptModuleBody)

/-- Presence or absence of a namespace body (absence is the shorthand
ambient module form). -/
inductive OptModuleBody where
  | noBody
  | body (b : ModuleBody)

/-- A namespace body: a block of statements, or a nested namespace
(`namespace a.b`). -/
inductive ModuleBody where
  | moduleBlock (statements : StatementList)
  | moduleDecl (d : ModuleDeclaration)

/-- A list of statements (flat mutual list, keeping recursion
structural). -/
inductive StatementList where
  | nil
  | cons (head : Statement) (tail : StatementList)

end

/-- The name of a module declaration. -/
def ModuleDeclaration.name : ModuleDeclaration → ModuleName
  | .mk n _ => n

/-- The body of a module declaration. -/
def ModuleDeclaration.body : ModuleDeclaration → OptModuleBody
  | .mk _ b => b

/-- The TypeScript kind name of a statement, for the unrecognized-kind
error message. -/
def kindNameOf : Statement → String
  | .importDecl _ => "ImportDeclaration"
  | .exportDecl _ => "ExportDeclaration"
  | .importEquals _ => "ImportEqualsDeclaration"
  | .moduleDecl _ => "ModuleDeclaration"
  | .variableStatement _ => "VariableStatement"
  | .enumDecl _ => "EnumDeclaration"
  | .classDecl _ => "ClassDeclaration"
  | .functionDecl _ => "FunctionDeclaration"
  | .interfaceDecl => "InterfaceDeclaration"
  | .typeAliasDecl => "TypeAliasDeclaration"
  | .namespaceExportDecl _ => "NamespaceExportDeclaration"
  | .otherStatement kindName => kindName

/-- Does a statement satisfy the boolean predicate somewhere in the list?
(JavaScript `Array.some`.) -/
def StatementList.any (p : Statement → Bool) : StatementList → Bool
  | .nil => false
  | .cons s rest => p s || StatementList.any p rest

/-- Membership in a statement list. -/
def StatementList.mem (s : Statement) : StatementList → Prop
  | .nil => False
  | .cons s0 rest => s = s0 ∨ StatementList.mem s rest

/-- The first namespace-export declaration of the list, if any
(`statements.find(ts.isNamespaceExportDeclaration)`). -/
def StatementList.findNamespaceExport : StatementList → Option String
  | .nil => none
  | .cons s rest =>
    match s with
    | .namespaceExportDecl n => some n
    | _ => StatementList.findNamespaceExport rest

/-- A parsed declaration file, as the code reads it off the TypeScript
syntax tree: top-level statements, `<reference path>` directive targets,
`<reference types>` directive targets, and the parser's judgement whether
the file is an external module (`ts.isExternalModule`). -/
structure FileData where
  statements : StatementList
  referencedFiles : List String
  typeReferenceDirectives : List String
  isExternalModule : Bool

/-- The file system joined with the parser: relative path to parsed file.
Reading a path not present here fails (missing file, or the rejected
byte-order mark of `readFileAndThrowOnBOM`). -/
abbrev FS : Type := List (String × FileData)

/-- Association-list lookup for the modelled file system. -/
def fsLookup : FS → String → Option FileData
  | [], _ => none
  | (k, v) :: rest, f => if k = f then some v else fsLookup rest f

/-! ## Module naming and dependency roots -/

/-- `withoutExtension` of `module-info.ts`: assert the extension and strip
it; the failed `assert` of the source is an error outcome. -/
def withoutExtension (str ext : String) : Except ErrInfo String :=
  if strEndsWith str ext then .ok (strDropRight str ext.data.length)
  else .error ⟨.assertFailed, "assert failed: str.endsWith(ext)", []⟩

/-- `properModuleName` of `module-info.ts`: the module name a file
declares, derived from its resolved path. -/
def properModuleName (folderName fileName : String) : Except ErrInfo String :=
  let part :=
    if pathBasename fileName = "index.d.ts" then .ok (pathDirname fileName)
    else withoutExtension fileName (".d.ts")
  match part with
  | .error e => .error e
  | .ok p => .ok (if p = "." then folderName else joinPaths folderName p)

/-- Index of the first `/` of `s` at or after position `start`
(JavaScript `String.indexOf`). -/
def indexOfSlash (s : String) (start : Nat) : Option Nat :=
  ((s.data.drop start).findIdx? (fun c => c = '/')).map (fun i => i + start)

/-- `rootName` of `module-info.ts`: the dependency root of an import
target (`foo/bar/baz` has root `foo`; a scoped `@foo/bar/baz` has root
`@foo/bar`). -/
def rootName (importText : String) : String :=
  let slash := indexOfSlash importText 0
  let slash :=
    if strStartsWith importText ("@") then
      match slash with
      | none => none
      | some i => indexOfSlash importText (i + 1)
    else slash
  match slash with
  | none => importText
  | some i => strTake importText i

/-- `assertNoWindowsSlashes` of `module-info.ts`. -/
def assertNoWindowsSlashes (packageName fileName : String) : Except ErrInfo String :=
  if hasWindowsSlashes fileName then
    .error ⟨.windowsSlash,
      "In " ++ packageName ++ ": Use forward slash instead when referencing " ++ fileName, []⟩
  else .ok fileName

/-! ## Import extraction -/

/-- `parseRequire` of `module-info.ts`: the string of an
`import x = require(...)` reference; anything else is an error. -/
def parseRequire (expression : Option ExprKind) : Except ErrInfo String :=
  match expression with
  | some (.strLit text) => .ok text
  | _ => .error ⟨.badImportEquals, "Bad import= reference", []⟩

mutual

/-- The `imports` generator of `module-info.ts` over a statement list:
every string referenced in `import` statements (and `export ... from`),
recursing into the bodies of ambient modules with string-literal names.
Yield order is statement order. -/
def importsList : StatementList → Except ErrInfo (List String)
  | .nil => .ok []
  | .cons s rest =>
    match importsOne s with
    | .error e => .error e
    | .ok hd =>
      match importsList rest with
      | .error e => .error e
      | .ok tl => .ok (hd ++ tl)

/-- The imports contributed by a single statement (one arm of the switch
of `imports`). -/
def importsOne : Statement → Except ErrInfo (List String)
  | .importDecl moduleSpecifier =>
    .ok (match moduleSpecifier with
      | some (.strLit text) => [text]
      | _ => [])
  | .exportDecl moduleSpecifier =>
    .ok (match moduleSpecifier with
      | some (.strLit text) => [text]
      | _ => [])
  | .importEquals moduleReference =>
    (match moduleReference with
      | .externalModuleRef expression =>
        match parseRequire expression with
        | .error e => .error e
        | .ok text => .ok [text]
      | .qualifiedRef => .ok [])
  | .moduleDecl d => importsModule d
  | _ => .ok []

/-- The `ModuleDeclaration` arm of `imports`: recurse into the body when
the module is keyed by a string literal.  The source recurses
unconditionally (`imports(body as ts.ModuleBlock)`), so a string-literal
module without a block body — the shorthand `declare module` form, whose
body is undefined — makes the drain throw a `TypeError` when the
generator reaches that statement. -/
def importsModule : ModuleDeclaration → Except ErrInfo (List String)
  | .mk name body =>
    match name with
    | .strLit _ =>
      (match body with
       | .body (.moduleBlock statements) => importsList statements
       | _ => .error ⟨.typeError,
           "TypeError: cannot read statements of a module with no block body", []⟩)
    | .ident _ => .ok []

end

mutual

/-- Total collection of the same import strings `importsList` yields: the
characterization used by the theorems.  It is compared with `importsList`
only under a success hypothesis, so the inputs on which `importsList`
fails — a malformed `import =` reference, or a string-literal module
without a block body — contribute nothing here; their value is never
consulted by any theorem. -/
def rawImportTexts : StatementList → List String
  | .nil => []
  | .cons s rest => rawImportText1 s ++ rawImportTexts rest

/-- Single-statement case of `rawImportTexts`. -/
def rawImportText1 : Statement → List String
  | .importDecl moduleSpecifier =>
    (match moduleSpecifier with
      | some (.strLit text) => [text]
      | _ => [])
  | .exportDecl moduleSpecifier =>
    (match moduleSpecifier with
      | some (.strLit text) => [text]
      | _ => [])
  | .importEquals moduleReference =>
    (match moduleReference with
      | .externalModuleRef (some (.strLit text)) => [text]
      | _ => [])
  | .moduleDecl d => rawImportModule d
  | _ => []

/-- Module-declaration case of `rawImportTexts`. -/
def rawImportModule : ModuleDeclaration → List String
  | .mk name body =>
    match name with
    | .strLit _ =>
      (match body with
       | .body (.moduleBlock statements) => rawImportTexts statements
       | _ => [])
    | .ident _ => []

end

/-! ## Classification predicates -/

/-- `sourceFileExportsSomething` of `module-info.ts`: a file exports
something when some top-level statement is neither an import form nor an
ambient module keyed by a string literal. -/
def sourceFileExportsSomething (statements : StatementList) : Bool :=
  statements.any (fun statement =>
    match statement with
    | .importEquals _ => false
    | .importDecl _ => false
    | .moduleDecl d =>
      (match d.name with
        | .ident _ => true
        | .strLit _ => false)
    | _ => true)

mutual

/-- `isValueNamespace` of `module-info.ts`: does an ambient namespace
declare a runtime value?  A missing body (shorthand ambient module) is an
error. -/
def isValueNamespace : ModuleDeclaration → Except ErrInfo Bool
  | .mk _ body =>
    match body with
    | .noBody => .error ⟨.shorthandAmbientModule, "@types should not use shorthand ambient modules", []⟩
    | .body (.moduleDecl d) => isValueNamespace d
    | .body (.moduleBlock statements) => someDeclaresValue statements

/-- `statements.some(statementDeclaresValue)` with error propagation and
the short-circuit of `Array.some`. -/
def someDeclaresValue : StatementList → Except ErrInfo Bool
  | .nil => .ok false
  | .cons s rest =>
    match statementDeclaresValue s with
    | .error e => .error e
    | .ok true => .ok true
    | .ok false => someDeclaresValue rest

/-- `statementDeclaresValue` of `module-info.ts`: an unrecognized ambient
statement kind is an error, never a silent classification. -/
def statementDeclaresValue : Statement → Except ErrInfo Bool
  | .variableStatement _ => .ok true
  | .classDecl _ => .ok true
  | .functionDecl _ => .ok true
  | .enumDecl _ => .ok true
  | .moduleDecl d => isValueNamespace d
  | .interfaceDecl => .ok false
  | .typeAliasDecl => .ok false
  | .importEquals _ => .ok false
  | s => .error ⟨.unrecognizedAmbientStatement,
      "Forgot to implement ambient namespace statement " ++ kindNameOf s, []⟩

end

/-! ## Reading and resolving references -/

/-- Modelled from the spec: `readFileAndThrowOnBOM` of
`src/lib/definition-parser.ts` (not among the sources here) is the
injected read capability; it yields the text of `directory/fileName` and
fails on a missing file or on a byte-order mark.  Composed with the
parser, it yields the parsed `FileData`; both failure modes are a lookup
miss of the modelled file system. -/
def readFileAndThrowOnBOM (fs : FS) (directory fileName : String) : Except ErrInfo FileData :=
  match fsLookup fs fileName with
  | some fd => .ok fd
  | none => .error ⟨.readError, "Unable to read " ++ joinPaths directory fileName, []⟩

/-- `readFileAndReportErrors` of `module-info.ts`: read, and on failure
report which file referenced the unreadable target before rethrowing.
The `console.error` report is modelled as a note attached to the
propagated error. -/
def readFileAndReportErrors (fs : FS) (referencedFrom directory referenceText fileName : String) :
    Except ErrInfo FileData :=
  match readFileAndThrowOnBOM fs directory fileName with
  | .ok content => .ok content
  | .error err =>
    .error { err with notes :=
      ("In " ++ directory ++ ", " ++ referencedFrom ++ " references " ++ referenceText ++
        ", which can't be read.") :: err.notes }

/-- `resolveModule` of `module-info.ts`: a non-exact (module-style)
reference first tries `<text>.d.ts`, then falls back to
`<text-minus-trailing-slash>/index.d.ts` (with `./index.d.ts` at the root
recorded as `index.d.ts`); only the fallback read reports context. -/
def resolveModule (fs : FS) (referencedFrom directory filename : String) :
    Except ErrInfo (String × FileData) :=
  let dts := filename ++ ".d.ts"
  match readFileAndThrowOnBOM fs directory dts with
  | .ok content => .ok (dts, content)
  | .error _ =>
    let index := joinPaths (if strEndsWith filename ("/") then strDropRight filename 1 else filename)
      ("index.d.ts")
    let resolvedFilename := if index = "./index.d.ts" then "index.d.ts" else index
    match readFileAndReportErrors fs referencedFrom directory filename index with
    | .ok content => .ok (resolvedFilename, content)
    | .error e => .error e

/-- A pending reference: `<reference path>` targets are exact filenames,
and import targets go through `resolveModule`. -/
structure Reference where
  exact : Bool
  text : String
  deriving DecidableEq, Repr

/-- Resolution of one reference to a filename and its parsed content:
the `exact`/non-exact branch at the head of `recur` in
`allReferencedFiles`. -/
def resolveRef (fs : FS) (directory referencedFrom : String) (r : Reference) :
    Except ErrInfo (String × FileData) :=
  if r.exact then
    match readFileAndReportErrors fs referencedFrom directory r.text r.text with
    | .ok content => .ok (r.text, content)
    | .error e => .error e
  else resolveModule fs referencedFrom directory r.text

/-- `addReference` of `module-info.ts`: join a raw reference target
against the referencing file's directory, normalize, and reject targets
that escape the package directory or use Windows separators. -/
def addReference (directory srcFileName subDirectory : String) (exact : Bool) (text : String) :
    Except ErrInfo Reference :=
  match assertNoWindowsSlashes srcFileName text with
  | .error e => .error e
  | .ok t =>
    let full := normalizeSlashes (pathNormalize (joinPaths subDirectory t))
    if strStartsWith full ("..") then
      .error ⟨.illegalParentReference,
        "In " ++ directory ++ " " ++ srcFileName ++
          ": Definitions must use global references to other packages, not parent (\"../xxx\") references.(Based on reference " ++
          text ++ ")", []⟩
    else .ok ⟨exact, full⟩

/-- `addReference` over a list of raw targets, stopping at the first
error (the order in which the `referencedFiles` generator is drained). -/
def addRefAll (directory srcFileName subDirectory : String) (exact : Bool) :
    List String → Except ErrInfo (List Reference)
  | [] => .ok []
  | t :: rest =>
    match addReference directory srcFileName subDirectory exact t with
    | .error e => .error e
    | .ok r =>
      match addRefAll directory srcFileName subDirectory exact rest with
      | .error e => .error e
      | .ok rs => .ok (r :: rs)

/-- The `referencedFiles` generator of `module-info.ts`, drained: every
`<reference path>` directive (exact), then every relative import
(non-exact), each joined and checked by `addReference`. -/
def referencedFilesIn (directory subDirectory srcFileName : String) (fd : FileData) :
    Except ErrInfo (List Reference) :=
  match addRefAll directory srcFileName subDirectory true fd.referencedFiles with
  | .error e => .error e
  | .ok pathRefs =>
    match importsList fd.statements with
    | .error e => .error e
    | .ok imps =>
      match addRefAll directory srcFileName subDirectory false
          (imps.filter (fun ref => strStartsWith ref ("."))) with
      | .error e => .error e
      | .ok importRefs => .ok (pathRefs ++ importRefs)

/-! ## The traversal

`allReferencedFiles` runs `recur` over every entry file; `recur` skips
already-seen reference texts, resolves the reference, records the parsed
file under its resolved filename, and recurses into the file's own
references.  Here the recursion is a worklist of
`(referencedFrom, reference)` pairs processed depth first; the `seen` set
and the insertion-ordered result map are lists.  The fuel below is a
computable bound on the number of worklist steps; `c1` proves it is never
exhausted on the runs it speaks about. -/

/-- `Map.set` of the result map: replace in place or append. -/
def mapSet : List (String × FileData) → String → FileData → List (String × FileData)
  | [], fn, fd => [(fn, fd)]
  | (k, v) :: rest, fn, fd =>
    if k = fn then (fn, fd) :: rest else (k, v) :: mapSet rest fn fd

/-- One worklist item: who referenced, and the pending reference. -/
abbrev WorkItem : Type := String × Reference

/-- The worklist of the entry files: each entry filename is an exact
reference, referenced from `tsconfig.json`. -/
def initWork (entryFilenames : List String) : List WorkItem :=
  entryFilenames.map (fun filename => ("tsconfig.json", ⟨true, filename⟩))

/-- The references a file of the file system can contribute to the
traversal (empty if draining its references fails).  Used to size the
fuel and as the universe for the dedup argument. -/
def fileCandidateRefs (directory : String) (kv : String × FileData) : List Reference :=
  match referencedFilesIn directory (pathDirname kv.1) kv.1 kv.2 with
  | .ok refs => refs
  | .error _ => []

/-- Every reference the traversal can ever see: the entry references and
the references of every file of the file system. -/
def allCandidateRefs (directory : String) (fs : FS) (entryFilenames : List String) :
    List Reference :=
  (initWork entryFilenames).map (fun it => it.2) ++ fs.flatMap (fileCandidateRefs directory)

/-- Fuel for the worklist: each step either retires a worklist item or
moves a new text into `seen`; texts live in the finite candidate
universe, and a step pushes at most the whole universe. -/
def traversalFuel (directory : String) (fs : FS) (entryFilenames : List String) : Nat :=
  let u := (allCandidateRefs directory fs entryFilenames).map (fun r => r.text)
  u.dedup.length * (u.length + 1) + entryFilenames.length + 1

/-- The worklist loop of `allReferencedFiles` (the serialized `recur`). -/
def goRef (fs : FS) (directory : String) :
    Nat → List String → List (String × FileData) → List WorkItem →
    Except ErrInfo (List (String × FileData))
  | _, _, all, [] => .ok all
  | 0, _, _, _ :: _ => .error ⟨.outOfFuel, "traversal fuel exhausted", []⟩
  | fuel + 1, seen, all, (referencedFrom, r) :: work =>
    if r.text ∈ seen then goRef fs directory fuel seen all work
    else
      match resolveRef fs directory referencedFrom r with
      | .error e => .error e
      | .ok (resolvedFilename, content) =>
        match referencedFilesIn directory (pathDirname resolvedFilename) resolvedFilename content with
        | .error e => .error e
        | .ok refs =>
          goRef fs directory fuel (r.text :: seen) (mapSet all resolvedFilename content)
            (refs.map (fun ref => (resolvedFilename, ref)) ++ work)

/-- `allReferencedFiles` of `module-info.ts`: the map from resolved
filename to parsed file, for every file transitively referenced from the
entry files. -/
def allReferencedFiles (fs : FS) (directory : String) (entryFilenames : List String) :
    Except ErrInfo (List (String × FileData)) :=
  goRef fs directory (traversalFuel directory fs entryFilenames) [] [] (initWork entryFilenames)

/-! ## The classifier: `getModuleInfo` -/

/-- The final output of `getModuleInfo`. -/
structure ModuleInfo where
  declFiles : List String
  dependencies : List String
  declaredModules : List String
  globals : List String
  deriving DecidableEq, Repr

/-- The mutable accumulators of the classification loop of
`getModuleInfo` (`dependencies` and `globals` are insertion-ordered sets,
`declaredModules` an array). -/
structure ClassifyState where
  dependencies : List String
  declaredModules : List String
  globals : List String
  deriving DecidableEq, Repr

/-- `addDependency` of `getModuleInfo`: record a dependency unless it is
the package itself (self-references are silently ignored). -/
def addDependency (packageName dependency : String) (deps : List String) : List String :=
  if dependency ≠ packageName then setAdd deps dependency else deps

/-- Globals contributed by one top-level statement of a non-external
(global script) file: the second half of the classification loop. -/
def processGlobalStatement (packageName : String) (st : ClassifyState) (node : Statement) :
    Except ErrInfo ClassifyState :=
  match node with
  | .moduleDecl d =>
    (match d.name with
     | .strLit name =>
        match assertNoWindowsSlashes packageName name with
        | .error e => .error e
        | .ok n => .ok { st with declaredModules := st.declaredModules ++ [n] }
     | .ident name =>
        match isValueNamespace d with
        | .error e => .error e
        | .ok true => .ok { st with globals := setAdd st.globals name }
        | .ok false => .ok st)
  | .variableStatement declarations =>
    .ok { st with globals := (declarations.foldl
      (fun g dn =>
        match dn with
        | .identName s => setAdd g s
        | .patternName => g) st.globals) }
  | .enumDecl name =>
    .ok { st with globals := (match name with | some n => setAdd st.globals n | none => st.globals) }
  | .classDecl name =>
    .ok { st with globals := (match name with | some n => setAdd st.globals n | none => st.globals) }
  | .functionDecl name =>
    .ok { st with globals := (match name with | some n => setAdd st.globals n | none => st.globals) }
  | _ => .ok st

/-- Fold `processGlobalStatement` over the top-level statements. -/
def processGlobalStatements (packageName : String) (st : ClassifyState) :
    StatementList → Except ErrInfo ClassifyState
  | .nil => .ok st
  | .cons s rest =>
    match processGlobalStatement packageName st s with
    | .error e => .error e
    | .ok st2 => processGlobalStatements packageName st2 rest

/-- The body of the per-file loop of `getModuleInfo`: dependencies from
the imports, dependencies from type-reference directives, then the
module/global classification of the file. -/
def processSourceFile (packageName fileName : String) (fd : FileData) (st : ClassifyState) :
    Except ErrInfo ClassifyState :=
  match importsList fd.statements with
  | .error e => .error e
  | .ok refs =>
    let deps := refs.foldl
      (fun d ref => if !strStartsWith ref (".") then addDependency packageName (rootName ref) d else d)
      st.dependencies
    let deps := fd.typeReferenceDirectives.foldl
      (fun d ref => addDependency packageName ref d) deps
    let st := { st with dependencies := deps }
    if fd.isExternalModule then
      if sourceFileExportsSomething fd.statements then
        match properModuleName packageName fileName with
        | .error e => .error e
        | .ok name =>
          let st := { st with declaredModules := st.declaredModules ++ [name] }
          .ok (match fd.statements.findNamespaceExport with
            | some n => { st with globals := setAdd st.globals n }
            | none => st)
      else .ok st
    else processGlobalStatements packageName st fd.statements

/-- The classification loop over every resolved file, in map order. -/
def processAll (packageName : String) :
    List (String × FileData) → ClassifyState → Except ErrInfo ClassifyState
  | [], st => .ok st
  | kv :: rest, st =>
    match processSourceFile packageName kv.1 kv.2 st with
    | .error e => .error e
    | .ok st2 => processAll packageName rest st2

/-- `getModuleInfo` of `module-info.ts`: resolve the reference graph from
the entry files, then classify every resolved file. -/
def getModuleInfo (packageName directory : String) (fs : FS) (allEntryFilenames : List String) :
    Except ErrInfo ModuleInfo :=
  match allReferencedFiles fs directory allEntryFilenames with
  | .error e => .error e
  | .ok all =>
    match processAll packageName all ⟨[], [], []⟩ with
    | .error e => .error e
    | .ok st =>
      .ok { declFiles := sortStrings (all.map (fun kv => kv.1))
            dependencies := st.dependencies
            declaredModules := st.declaredModules
            globals := sortStrings st.globals }

/-! ## The test-dependency analyzer -/

/-- The type-reference-directive loop of `getTestDependencies`: a target
already among the known dependencies, or naming the package itself, is a
terminal error; otherwise it joins the result set. -/
def testTypeRefs (pkgName filePath : String) (dependencies : List String) :
    List String → List String → Except ErrInfo (List String)
  | acc, [] => .ok acc
  | acc, referencedPackage :: rest =>
    if referencedPackage ∈ dependencies then
      .error ⟨.redundantTestReference,
        filePath ++ " unnecessarily references " ++ referencedPackage ++
          ", which is already referenced in the type definition.", []⟩
    else if referencedPackage = pkgName then
      .error ⟨.testSelfReference,
        filePath ++ " unnecessarily references the package. This can be removed.", []⟩
    else testTypeRefs pkgName filePath dependencies (setAdd acc referencedPackage) rest

/-- The per-file body of `getTestDependencies`. -/
def processTestFile (pkgName directory : String) (fs : FS) (dependencies : List String)
    (acc : List String) (filename : String) : Except ErrInfo (List String) :=
  match readFileAndThrowOnBOM fs directory filename with
  | .error e => .error e
  | .ok sourceFile =>
    match sourceFile.referencedFiles with
    | ref :: _ =>
      .error ⟨.testPathReference,
        "Test files should not use <reference path>. " ++ pathJoin pkgName filename ++
          " references " ++ ref ++ ".", []⟩
    | [] =>
      match testTypeRefs pkgName (pathJoin pkgName filename) dependencies acc
          sourceFile.typeReferenceDirectives with
      | .error e => .error e
      | .ok acc2 =>
        match importsList sourceFile.statements with
        | .error e => .error e
        | .ok imps =>
          .ok (imps.foldl
            (fun a imported =>
              if !strStartsWith imported (".") ∧ imported ∉ dependencies ∧ imported ≠ pkgName then
                setAdd a imported
              else a) acc2)

/-- The loop of `getTestDependencies` over the test files. -/
def testFilesLoop (pkgName directory : String) (fs : FS) (dependencies : List String) :
    List String → List String → Except ErrInfo (List String)
  | acc, [] => .ok acc
  | acc, filename :: rest =>
    match processTestFile pkgName directory fs dependencies acc filename with
    | .error e => .error e
    | .ok acc2 => testFilesLoop pkgName directory fs dependencies acc2 rest

/-- `getTestDependencies` of `module-info.ts`: the extra external
dependencies introduced by the test files alone. -/
def getTestDependencies (pkgName directory : String) (fs : FS) (testFiles : List String)
    (dependencies : List String) : Except ErrInfo (List String) :=
  testFilesLoop pkgName directory fs dependencies [] testFiles

/-! ## Reachability

The per-edge closure of the reference graph: a reference is reachable
when it is an entry reference, or is drained from a file that a reachable
reference resolves to.  `resolveRef` and `referencedFilesIn` only use the
referencing-file name in error messages, so successful resolution is
independent of it; the fixed `tsconfig.json` below makes the relation a
function of the graph alone. -/

/-- The references reachable from the entry files by following path
references and relative imports transitively. -/
inductive ReachRef (fs : FS) (directory : String) (entryFilenames : List String) :
    Reference → Prop where
  | entry : ∀ {f}, f ∈ entryFilenames →
      ReachRef fs directory entryFilenames ⟨true, f⟩
  | step : ∀ {r fn fd refs r2},
      ReachRef fs directory entryFilenames r →
      resolveRef fs directory ("tsconfig.json") r = .ok (fn, fd) →
      referencedFilesIn directory (pathDirname fn) fn fd = .ok refs →
      r2 ∈ refs →
      ReachRef fs directory entryFilenames r2

mutual

/-- The value-namespace characterization of the spec: unwrapping nested
single-child namespace bodies, the body holds a variable statement,
class, function or enum declaration, or a nested namespace that is
recursively a value namespace. -/
inductive SpecValueNamespace : ModuleDeclaration → Prop where
  | viaBlock : ∀ {name statements},
      SpecValueStatements statements →
      SpecValueNamespace (.mk name (.body (.moduleBlock statements)))
  | viaNested : ∀ {name d},
      SpecValueNamespace d →
      SpecValueNamespace (.mk name (.body (.moduleDecl d)))

/-- Some statement of the list declares a value in the sense of the
spec. -/
inductive SpecValueStatements : StatementList → Prop where
  | here : ∀ {s rest}, SpecDeclaresValue s → SpecValueStatements (.cons s rest)
  | there : ∀ {s rest}, SpecValueStatements rest → SpecValueStatements (.cons s rest)

/-- A single statement declares a value in the sense of the spec:
variable statements, class, function and enum declarations do, a nested
namespace does when it is recursively a value namespace; interfaces, type
aliases and import-equals declarations never do. -/
inductive SpecDeclaresValue : Statement → Prop where
  | variable : ∀ {declarations}, SpecDeclaresValue (.variableStatement declarations)
  | classD : ∀ {name}, SpecDeclaresValue (.classDecl name)
  | functionD : ∀ {name}, SpecDeclaresValue (.functionDecl name)
  | enumD : ∀ {name}, SpecDeclaresValue (.enumDecl name)
  | nested : ∀ {d}, SpecValueNamespace d → SpecDeclaresValue (.moduleDecl d)

end

/-- The string-literal ambient module names among a statement list, in
order. -/
def stringLitModuleNames : StatementList → List String
  | .nil => []
  | .cons s rest =>
    (match s with
      | .moduleDecl (.mk (.strLit name) _) => [name]
      | _ => []) ++ stringLitModuleNames rest

/-- The declared-modules contribution of a single resolved file, as the
spec describes the classification: an external module that exports
something contributes its derived module name; a global script
contributes the literal names of its string-literal ambient module
declarations, in order. -/
def declaredModulesContribution (packageName fileName : String) (fd : FileData) : List String :=
  if fd.isExternalModule then
    if sourceFileExportsSomething fd.statements then
      match properModuleName packageName fileName with
      | .ok name => [name]
      | .error _ => []
    else []
  else stringLitModuleNames fd.statements

/-! ## Fixtures

Small concrete packages, used by the counterexamples and witnesses
below. -/

/-- `a.d.ts` of the cyclic package: an external module importing `./b`. -/
def cycFileA : FileData :=
  ⟨.cons (.importDecl (some (.strLit "./b"))) .nil, [], [], true⟩

/-- `b.d.ts` of the cyclic package: an external module importing `./a`. -/
def cycFileB : FileData :=
  ⟨.cons (.importDecl (some (.strLit "./a"))) .nil, [], [], true⟩

/-- Two declaration files importing each other. -/
def cycFs : FS := [("a.d.ts", cycFileA), ("b.d.ts", cycFileB)]

/-- The entry file of the text-collision package: a
`<reference path="b" />` directive and an import of `./b`, whose joined
and normalized reference texts coincide while their resolution rules
differ. -/
def dupFileIndex : FileData :=
  ⟨.cons (.importDecl (some (.strLit "./b"))) .nil, ["b"], [], true⟩

/-- An empty global script. -/
def emptyScript : FileData := ⟨.nil, [], [], false⟩

/-- The text-collision package: the entry references the file `b` by
path and the module `./b` (which resolves to `b.d.ts`) by import. -/
def dupFs : FS := [("index.d.ts", dupFileIndex), ("b", emptyScript), ("b.d.ts", emptyScript)]

/-- A global script whose only statement is `declare module "x" { }`. -/
def ambientModuleFile : FileData :=
  ⟨.cons (.moduleDecl (.mk (.strLit "x") (.body (.moduleBlock .nil)))) .nil, [], [], false⟩

/-- A one-file package declaring an ambient module from a global
script. -/
def ambientFs : FS := [("index.d.ts", ambientModuleFile)]

/-- A global script declaring `namespace N { interface ... }`. -/
def nsInterfaceFile : FileData :=
  ⟨.cons (.moduleDecl (.mk (.ident "N") (.body (.moduleBlock (.cons .interfaceDecl .nil))))) .nil,
    [], [], false⟩

/-- A one-file package whose namespace holds only an interface. -/
def nsInterfaceFs : FS := [("index.d.ts", nsInterfaceFile)]

/-- A global script declaring `namespace N { class C ... }`. -/
def nsClassFile : FileData :=
  ⟨.cons (.moduleDecl (.mk (.ident "N") (.body (.moduleBlock (.cons (.classDecl (some "C")) .nil)))))
    .nil, [], [], false⟩

/-- A one-file package whose namespace holds a class. -/
def nsClassFs : FS := [("index.d.ts", nsClassFile)]

/-- An entry file whose only reference is the exact
`<reference path="b.d.ts" />`, with `b.d.ts` absent from the package. -/
def missingRefFile : FileData := ⟨.nil, ["b.d.ts"], [], false⟩

/-- The package with an unreadable exact reference target. -/
def missingRefFs : FS := [("a.d.ts", missingRefFile)]

/-- An entry file with a parent-directory path reference. -/
def parentRefFile : FileData := ⟨.nil, ["../x.d.ts"], [], false⟩

/-- The package whose entry escapes the package directory. -/
def parentRefFs : FS := [("index.d.ts", parentRefFile)]

/-- A test file importing `known` and `novel`. -/
def testImportsFile : FileData :=
  ⟨.cons (.importDecl (some (.strLit "known"))) (.cons (.importDecl (some (.strLit "novel"))) .nil),
    [], [], true⟩

/-- The package of the test-dependency witness. -/
def testImportsFs : FS := [("pkg-tests.ts", testImportsFile)]

/-- An entry file whose type-reference directive and import both name
the package `pkg` itself. -/
def selfRefFile : FileData :=
  ⟨.cons (.importDecl (some (.strLit "pkg/sub"))) .nil, [], ["pkg"], true⟩

/-- The self-referencing package. -/
def selfRefFs : FS := [("index.d.ts", selfRefFile)]

/-- A global script whose ambient module `"x"` contains a relative and a
scoped non-relative import. -/
def nestedImportsFile : FileData :=
  ⟨.cons (.moduleDecl (.mk (.strLit "x") (.body (.moduleBlock
      (.cons (.importDecl (some (.strLit "./b")))
        (.cons (.importDecl (some (.strLit "@s/p/q"))) .nil)))))) .nil,
    [], [], false⟩

/-- The package exercising imports nested inside a string-named ambient
module. -/
def nestedImportsFs : FS := [("index.d.ts", nestedImportsFile), ("b.d.ts", emptyScript)]

/-- The failure condition of `getTestDependencies` for one test file: a
path-style reference directive, or a type-reference directive whose
target is already a known dependency or names the package itself. -/
def testFileViolation (pkgName : String) (dependencies : List String) (fd : FileData) : Prop :=
  fd.referencedFiles ≠ [] ∨ ∃ t ∈ fd.typeReferenceDirectives, t ∈ dependencies ∨ t = pkgName

/-- What one test file contributes to the test-dependency set on a
successful run: its type-reference-directive targets, and its
non-relative import targets that are neither known dependencies nor the
package itself. -/
def testFileContrib (pkgName : String) (dependencies : List String) (fd : FileData)
    (x : String) : Prop :=
  x ∈ fd.typeReferenceDirectives ∨
    ∃ imps, importsList fd.statements = .ok imps ∧ x ∈ imps ∧
      strStartsWith x (".") = false ∧ x ∉ dependencies ∧ x ≠ pkgName

/-! ## C3: derived module names -/

/-- C3, counterexample: the claim evaluates `properModuleName` on paths
that already carry the package folder, but the function receives paths
relative to the package directory and always prefixes the package name:
`properModuleName "foo" "foo/index.d.ts"` is `foo/foo`, not `foo`. -/
theorem c3_counterexample :
    properModuleName ("foo") ("foo/index.d.ts") = .ok ("foo/foo") ∧
    properModuleName ("foo") ("foo/bar.d.ts") = .ok ("foo/foo/bar") ∧
    properModuleName ("foo") ("foo/bar/index.d.ts") = .ok ("foo/foo/bar") ∧
    ("foo/foo" : String) ≠ "foo" := by
  refine ⟨rfl, rfl, rfl, ?_⟩
  decide

/-- C3, amended: on paths relative to the package directory,
`properModuleName "foo" "index.d.ts" = "foo"`,
`properModuleName "foo" "bar.d.ts" = "foo/bar"`, and
`properModuleName "foo" "bar/index.d.ts" = "foo/bar"`; in general the
derived name is the package name joined with the file's parent directory
path when its base name is `index.d.ts`, and otherwise the package name
joined with the file's path minus the `.d.ts` extension, the bare package
name standing in when the part is the current-directory sentinel. -/
theorem c3_properModuleName :
    properModuleName ("foo") ("index.d.ts") = .ok ("foo") ∧
    properModuleName ("foo") ("bar.d.ts") = .ok ("foo/bar") ∧
    properModuleName ("foo") ("bar/index.d.ts") = .ok ("foo/bar") ∧
    (∀ folderName fileName, pathBasename fileName = "index.d.ts" →
      properModuleName folderName fileName =
        .ok (if pathDirname fileName = "." then folderName
          else joinPaths folderName (pathDirname fileName))) ∧
    (∀ folderName fileName, pathBasename fileName ≠ "index.d.ts" →
      strEndsWith fileName (".d.ts") = true →
      properModuleName folderName fileName =
        .ok (if strDropRight fileName 5 = "." then folderName
          else joinPaths folderName (strDropRight fileName 5))) := by
  refine ⟨rfl, rfl, rfl, ?_, ?_⟩
  · intro folderName fileName h
    simp [properModuleName, h]
  · intro folderName fileName h h2
    have h5 : (".d.ts" : String).data.length = 5 := by decide
    simp [properModuleName, withoutExtension, h, h2, h5]

/-- C3, witness: the general clauses of `c3_properModuleName` at
`sub/index.d.ts` and `sub/lib.d.ts`. -/
theorem c3_witness :
    pathBasename ("sub/index.d.ts") = "index.d.ts" ∧
    properModuleName ("foo") ("sub/index.d.ts") =
      .ok (if pathDirname ("sub/index.d.ts") = "." then "foo"
        else joinPaths ("foo") (pathDirname ("sub/index.d.ts"))) ∧
    pathBasename ("sub/lib.d.ts") ≠ "index.d.ts" ∧
    strEndsWith ("sub/lib.d.ts") (".d.ts") = true ∧
    properModuleName ("foo") ("sub/lib.d.ts") =
      .ok (if strDropRight ("sub/lib.d.ts") 5 = "." then "foo"
        else joinPaths ("foo") (strDropRight ("sub/lib.d.ts") 5)) := by
  refine ⟨by decide, c3_properModuleName.2.2.2.1 ("foo") ("sub/index.d.ts") (by decide),
    by decide, by decide, c3_properModuleName.2.2.2.2 ("foo") ("sub/lib.d.ts") (by decide) (by decide)⟩

/-! ## C8: shorthand namespaces and unrecognized ambient statements -/

/-- C8: an ambient namespace with no body is a terminal error during
value-namespace classification, and so is every statement kind outside
the recognized set (variable statement, class, function, enum, nested
module, interface, type alias, import-equals): import declarations,
export declarations, namespace-export declarations and any other
unhandled kind all raise the explicit unrecognized-statement error
instead of being classified silently. -/
theorem c8_classification_errors :
    (∀ name, isValueNamespace (.mk name .noBody) =
      .error ⟨.shorthandAmbientModule, "@types should not use shorthand ambient modules", []⟩) ∧
    (∀ moduleSpecifier, statementDeclaresValue (.importDecl moduleSpecifier) =
      .error ⟨.unrecognizedAmbientStatement,
        "Forgot to implement ambient namespace statement ImportDeclaration", []⟩) ∧
    (∀ moduleSpecifier, statementDeclaresValue (.exportDecl moduleSpecifier) =
      .error ⟨.unrecognizedAmbientStatement,
        "Forgot to implement ambient namespace statement ExportDeclaration", []⟩) ∧
    (∀ name, statementDeclaresValue (.namespaceExportDecl name) =
      .error ⟨.unrecognizedAmbientStatement,
        "Forgot to implement ambient namespace statement NamespaceExportDeclaration", []⟩) ∧
    (∀ kindName, statementDeclaresValue (.otherStatement kindName) =
      .error ⟨.unrecognizedAmbientStatement,
        "Forgot to implement ambient namespace statement " ++ kindName, []⟩) :=
  ⟨fun _ => rfl, fun _ => rfl, fun _ => rfl, fun _ => rfl, fun _ => rfl⟩

/-! ## C7: module resolution fallback and read-failure context -/

/-- C7, counterexample: a read failure for an exact `<reference path>`
target does not propagate unwrapped — `recur` routes exact reads through
`readFileAndReportErrors` too, so the failure carries the same
referencing-file/reference-text context as a non-exact one.  Here
`a.d.ts` has `<reference path="b.d.ts" />` with `b.d.ts` unreadable. -/
theorem c7_counterexample :
    allReferencedFiles missingRefFs ("types/pkg") ["a.d.ts"] =
      .error ⟨.readError, "Unable to read types/pkg/b.d.ts",
        ["In types/pkg, a.d.ts references b.d.ts, which can't be read."]⟩ ∧
    (["In types/pkg, a.d.ts references b.d.ts, which can't be read."] : List String) ≠ [] := by
  exact ⟨rfl, by decide⟩

/-- C7, amended: for a non-exact reference `t`, resolution first reads
`t + ".d.ts"`; if that fails it reads `t` minus any trailing slash joined
with `index.d.ts` and uses that as the resolved filename (normalized to
`index.d.ts` when the join is `./index.d.ts`); a failure of the fallback
read is reported with context naming the referencing file and the
reference text before the error propagates — and a read failure for an
exact `<reference path>` target is reported with the same context, not
propagated unwrapped. -/
theorem c7_resolveModule :
    (∀ fs referencedFrom directory t fd,
      fsLookup fs (t ++ ".d.ts") = some fd →
      resolveModule fs referencedFrom directory t = .ok (t ++ ".d.ts", fd)) ∧
    (∀ fs referencedFrom directory t fd,
      fsLookup fs (t ++ ".d.ts") = none →
      fsLookup fs
        (joinPaths (if strEndsWith t ("/") then strDropRight t 1 else t) ("index.d.ts")) = some fd →
      resolveModule fs referencedFrom directory t =
        .ok ((if joinPaths (if strEndsWith t ("/") then strDropRight t 1 else t) ("index.d.ts") =
            "./index.d.ts" then "index.d.ts"
          else joinPaths (if strEndsWith t ("/") then strDropRight t 1 else t) ("index.d.ts")), fd)) ∧
    (∀ fs referencedFrom directory t,
      fsLookup fs (t ++ ".d.ts") = none →
      fsLookup fs
        (joinPaths (if strEndsWith t ("/") then strDropRight t 1 else t) ("index.d.ts")) = none →
      resolveModule fs referencedFrom directory t =
        .error ⟨.readError,
          "Unable to read " ++ joinPaths directory
            (joinPaths (if strEndsWith t ("/") then strDropRight t 1 else t) ("index.d.ts")),
          ["In " ++ directory ++ ", " ++ referencedFrom ++ " references " ++ t ++
            ", which can't be read."]⟩) ∧
    (∀ fs referencedFrom directory (r : Reference),
      r.exact = true →
      fsLookup fs r.text = none →
      resolveRef fs directory referencedFrom r =
        .error ⟨.readError, "Unable to read " ++ joinPaths directory r.text,
          ["In " ++ directory ++ ", " ++ referencedFrom ++ " references " ++ r.text ++
            ", which can't be read."]⟩) := by
  refine ⟨?_, ?_, ?_, ?_⟩
  · intro fs referencedFrom directory t fd h
    simp [resolveModule, readFileAndThrowOnBOM, h]
  · intro fs referencedFrom directory t fd h h2
    simp [resolveModule, readFileAndThrowOnBOM, readFileAndReportErrors, h, h2]
  · intro fs referencedFrom directory t h h2
    simp [resolveModule, readFileAndThrowOnBOM, readFileAndReportErrors, h, h2]
  · intro fs referencedFrom directory r hx h
    simp [resolveRef, hx, readFileAndReportErrors, readFileAndThrowOnBOM, h]

/-- C7, witness: the four clauses of `c7_resolveModule` on a concrete
file system holding `m.d.ts` and `n/index.d.ts`. -/
theorem c7_witness :
    fsLookup [("m.d.ts", emptyScript), ("n/index.d.ts", emptyScript)] ("m.d.ts") =
      some emptyScript ∧
    resolveModule [("m.d.ts", emptyScript), ("n/index.d.ts", emptyScript)]
      ("index.d.ts") ("types/pkg") ("m") = .ok ("m.d.ts", emptyScript) ∧
    resolveModule [("m.d.ts", emptyScript), ("n/index.d.ts", emptyScript)]
      ("index.d.ts") ("types/pkg") ("n") = .ok ("n/index.d.ts", emptyScript) ∧
    resolveModule [("m.d.ts", emptyScript), ("n/index.d.ts", emptyScript)]
      ("index.d.ts") ("types/pkg") ("q") =
      .error ⟨.readError, "Unable to read types/pkg/q/index.d.ts",
        ["In types/pkg, index.d.ts references q, which can't be read."]⟩ ∧
    resolveRef [("m.d.ts", emptyScript), ("n/index.d.ts", emptyScript)]
      ("types/pkg") ("index.d.ts") ⟨true, "gone.d.ts"⟩ =
      .error ⟨.readError, "Unable to read types/pkg/gone.d.ts",
        ["In types/pkg, index.d.ts references gone.d.ts, which can't be read."]⟩ := by
  refine ⟨rfl, ?_, ?_, ?_, ?_⟩
  · exact c7_resolveModule.1 _ ("index.d.ts") ("types/pkg") ("m") emptyScript rfl
  · exact c7_resolveModule.2.1 _ ("index.d.ts") ("types/pkg") ("n") emptyScript rfl rfl
  · exact c7_resolveModule.2.2.1 _ ("index.d.ts") ("types/pkg") ("q") rfl rfl
  · exact c7_resolveModule.2.2.2 [("m.d.ts", emptyScript), ("n/index.d.ts", emptyScript)]
      ("index.d.ts") ("types/pkg") ⟨true, "gone.d.ts"⟩ rfl rfl

/-! ## C5: value namespaces -/

mutual

/-- When classification succeeds, `isValueNamespace` answers exactly the
spec's recursive value-namespace characterization. -/
theorem isValueNamespace_spec (d : ModuleDeclaration) (b : Bool)
    (h : isValueNamespace d = .ok b) : b = true ↔ SpecValueNamespace d := by
  match d with
  | .mk name .noBody => simp [isValueNamespace] at h
  | .mk name (.body (.moduleDecl d2)) =>
    rw [show isValueNamespace (.mk name (.body (.moduleDecl d2))) = isValueNamespace d2 from rfl]
      at h
    have ih := isValueNamespace_spec d2 b h
    constructor
    · intro hb
      exact .viaNested (ih.mp hb)
    · intro hs
      cases hs with
      | viaNested h2 => exact ih.mpr h2
  | .mk name (.body (.moduleBlock ss)) =>
    rw [show isValueNamespace (.mk name (.body (.moduleBlock ss))) = someDeclaresValue ss from rfl]
      at h
    have ih := someDeclaresValue_spec ss b h
    constructor
    · intro hb
      exact .viaBlock (ih.mp hb)
    · intro hs
      cases hs with
      | viaBlock h2 => exact ih.mpr h2

/-- When classification succeeds, `someDeclaresValue` answers exactly the
spec's some-statement-declares-a-value characterization. -/
theorem someDeclaresValue_spec (ss : StatementList) (b : Bool)
    (h : someDeclaresValue ss = .ok b) : b = true ↔ SpecValueStatements ss := by
  match ss with
  | .nil =>
    simp [someDeclaresValue] at h
    subst h
    constructor
    · intro hb
      cases hb
    · intro hs
      cases hs
  | .cons s rest =>
    cases hsd : statementDeclaresValue s with
    | error e => rw [someDeclaresValue, hsd] at h; cases h
    | ok bs =>
      have ihs := statementDeclaresValue_spec s bs hsd
      cases bs with
      | true =>
        rw [someDeclaresValue, hsd] at h
        cases h
        constructor
        · intro _
          exact .here (ihs.mp rfl)
        · intro _
          rfl
      | false =>
        rw [someDeclaresValue, hsd] at h
        have ih := someDeclaresValue_spec rest b h
        constructor
        · intro hb
          exact .there (ih.mp hb)
        · intro hs
          cases hs with
          | here h2 => exact absurd (ihs.mpr h2) (by simp)
          | there h2 => exact ih.mpr h2

/-- When classification succeeds, `statementDeclaresValue` answers
exactly the spec's single-statement characterization. -/
theorem statementDeclaresValue_spec (s : Statement) (b : Bool)
    (h : statementDeclaresValue s = .ok b) : b = true ↔ SpecDeclaresValue s := by
  match s with
  | .variableStatement ds =>
    cases h
    exact ⟨fun _ => .variable, fun _ => rfl⟩
  | .classDecl n =>
    cases h
    exact ⟨fun _ => .classD, fun _ => rfl⟩
  | .functionDecl n =>
    cases h
    exact ⟨fun _ => .functionD, fun _ => rfl⟩
  | .enumDecl n =>
    cases h
    exact ⟨fun _ => .enumD, fun _ => rfl⟩
  | .moduleDecl d =>
    rw [show statementDeclaresValue (.moduleDecl d) = isValueNamespace d from rfl] at h
    have ih := isValueNamespace_spec d b h
    constructor
    · intro hb
      exact .nested (ih.mp hb)
    · intro hs
      cases hs with
      | nested h2 => exact ih.mpr h2
  | .interfaceDecl =>
    cases h
    exact ⟨(fun hb => nomatch hb), (fun hs => nomatch hs)⟩
  | .typeAliasDecl =>
    cases h
    exact ⟨(fun hb => nomatch hb), (fun hs => nomatch hs)⟩
  | .importEquals mr =>
    cases h
    exact ⟨(fun hb => nomatch hb), (fun hs => nomatch hs)⟩
  | .importDecl ms => cases h
  | .exportDecl ms => cases h
  | .namespaceExportDecl n => cases h
  | .otherStatement k => cases h

end

/-- C5: whenever value-namespace classification of an ambient namespace
succeeds (all statements at every nesting level are of recognized kinds
and every nested namespace has a body), the namespace is classified a
value namespace exactly when the spec's recursive characterization
`SpecValueNamespace` holds — and accordingly, a global script whose
identifier-named namespace holds only an interface contributes no global,
while one whose namespace holds a class contributes the namespace
name. -/
theorem c5_isValueNamespace :
    (∀ (d : ModuleDeclaration) (b : Bool), isValueNamespace d = .ok b →
      ((isValueNamespace d = .ok true) ↔ SpecValueNamespace d)) ∧
    getModuleInfo ("pkg") ("types/pkg") nsInterfaceFs ["index.d.ts"] =
      .ok ⟨["index.d.ts"], [], [], []⟩ ∧
    getModuleInfo ("pkg") ("types/pkg") nsClassFs ["index.d.ts"] =
      .ok ⟨["index.d.ts"], [], [], ["N"]⟩ := by
  refine ⟨?_, rfl, rfl⟩
  intro d b h
  rw [h]
  have h2 : (Except.ok b = (Except.ok true : Except ErrInfo Bool)) ↔ b = true := by
    constructor
    · intro he
      cases he
      rfl
    · intro he
      rw [he]
  exact h2.trans (isValueNamespace_spec d b h)

/-- C5, witness: `c5_isValueNamespace` applied to the namespace
`N { class C }` (a value namespace) and, through the equivalence, to the
namespace `N { interface }` (not a value namespace). -/
theorem c5_witness :
    isValueNamespace (.mk (.ident "N") (.body (.moduleBlock (.cons (.classDecl (some "C")) .nil))))
      = .ok true ∧
    ((isValueNamespace
        (.mk (.ident "N") (.body (.moduleBlock (.cons (.classDecl (some "C")) .nil)))) = .ok true) ↔
      SpecValueNamespace (.mk (.ident "N") (.body (.moduleBlock (.cons (.classDecl (some "C")) .nil))))) ∧
    isValueNamespace (.mk (.ident "N") (.body (.moduleBlock (.cons .interfaceDecl .nil))))
      = .ok false ∧
    ((isValueNamespace
        (.mk (.ident "N") (.body (.moduleBlock (.cons .interfaceDecl .nil)))) = .ok true) ↔
      SpecValueNamespace (.mk (.ident "N") (.body (.moduleBlock (.cons .interfaceDecl .nil))))) :=
  ⟨rfl, c5_isValueNamespace.1 _ true rfl, rfl, c5_isValueNamespace.1 _ false rfl⟩

/-! ## C9: no self-dependency -/

/-- `setAdd` only introduces the element it is given. -/
theorem mem_setAdd {l : List String} {x y : String} (h : y ∈ setAdd l x) : y = x ∨ y ∈ l := by
  unfold setAdd at h
  by_cases hx : x ∈ l
  · rw [if_pos hx] at h
    exact .inr h
  · rw [if_neg hx] at h
    rcases List.mem_append.mp h with h2 | h2
    · exact .inr h2
    · exact .inl (List.mem_singleton.mp h2)

/-- `addDependency` never records the package's own name. -/
theorem addDependency_not_self {packageName dependency : String} {deps : List String}
    (h : packageName ∉ deps) : packageName ∉ addDependency packageName dependency deps := by
  unfold addDependency
  by_cases hd : dependency ≠ packageName
  · rw [if_pos hd]
    intro hmem
    rcases mem_setAdd hmem with h2 | h2
    · exact hd h2.symm
    · exact h h2
  · rw [if_neg hd]
    exact h

/-- A fold of self-guarded dependency additions never records the
package's own name. -/
theorem foldl_addDependency_not_self {packageName : String} (f : String → String)
    (p : String → Bool) :
    ∀ (l : List String) (deps : List String), packageName ∉ deps →
      packageName ∉ l.foldl
        (fun d ref => if p ref then addDependency packageName (f ref) d else d) deps := by
  intro l
  induction l with
  | nil => intro deps h; exact h
  | cons x rest ih =>
    intro deps h
    simp only [List.foldl_cons]
    by_cases hp : p x
    · rw [if_pos hp]
      exact ih _ (addDependency_not_self h)
    · rw [if_neg hp]
      exact ih _ h

/-- `processGlobalStatement` never touches the dependency set. -/
theorem processGlobalStatement_dependencies {packageName : String} {st st2 : ClassifyState}
    {node : Statement} (h : processGlobalStatement packageName st node = .ok st2) :
    st2.dependencies = st.dependencies := by
  unfold processGlobalStatement at h
  split at h
  · split at h
    · split at h
      · cases h
      · cases h
        rfl
    · split at h
      · cases h
      · cases h
        rfl
      · cases h
        rfl
  all_goals (cases h; rfl)

/-- The statement fold of a global script never touches the dependency
set. -/
theorem processGlobalStatements_dependencies {packageName : String} :
    ∀ (ss : StatementList) (st st2 : ClassifyState),
      processGlobalStatements packageName st ss = .ok st2 →
      st2.dependencies = st.dependencies
  | .nil, st, st2, h => by
    cases h
    rfl
  | .cons s rest, st, st2, h => by
    unfold processGlobalStatements at h
    split at h
    · cases h
    · next stm hs =>
      rw [processGlobalStatements_dependencies rest stm st2 h,
        processGlobalStatement_dependencies hs]

/-- One classification step keeps the package's own name out of the
dependency set. -/
theorem processSourceFile_not_self {packageName fileName : String} {fd : FileData}
    {st st2 : ClassifyState} (h : processSourceFile packageName fileName fd st = .ok st2)
    (hself : packageName ∉ st.dependencies) : packageName ∉ st2.dependencies := by
  unfold processSourceFile at h
  split at h
  · cases h
  · next refs him =>
    have hd2 : packageName ∉ fd.typeReferenceDirectives.foldl
        (fun d ref => addDependency packageName ref d)
        (refs.foldl
          (fun d ref =>
            if !strStartsWith ref (".") then addDependency packageName (rootName ref) d else d)
          st.dependencies) := by
      have h1 := @foldl_addDependency_not_self packageName rootName
        (fun ref => !strStartsWith ref (".")) refs st.dependencies hself
      have h2 := @foldl_addDependency_not_self packageName (fun x => x)
        (fun _ => true) fd.typeReferenceDirectives _ h1
      simpa using h2
    by_cases hext : fd.isExternalModule
    · rw [if_pos hext] at h
      by_cases hexp : sourceFileExportsSomething fd.statements
      · rw [if_pos hexp] at h
        split at h
        · cases h
        · split at h
          · cases h
            exact hd2
          · cases h
            exact hd2
      · rw [if_neg hexp] at h
        cases h
        exact hd2
    · rw [if_neg hext] at h
      rw [processGlobalStatements_dependencies fd.statements _ _ h]
      exact hd2

/-- The whole classification loop keeps the package's own name out of
the dependency set. -/
theorem processAll_not_self {packageName : String} :
    ∀ (files : List (String × FileData)) (st st2 : ClassifyState),
      processAll packageName files st = .ok st2 →
      packageName ∉ st.dependencies → packageName ∉ st2.dependencies := by
  intro files
  induction files with
  | nil =>
    intro st st2 h hs
    cases h
    exact hs
  | cons kv rest ih =>
    intro st st2 h hs
    unfold processAll at h
    split at h
    · cases h
    · next stm hp => exact ih stm st2 h (processSourceFile_not_self hp hs)

/-- C9: a successful `getModuleInfo` never lists the package itself among
the dependencies — and concretely, a package whose entry carries a
type-reference directive naming the package and an import rooted at the
package succeeds with an empty dependency set rather than recording or
rejecting the self-reference. -/
theorem c9_no_self_dependency :
    (∀ (packageName directory : String) (fs : FS) (entries : List String) (info : ModuleInfo),
      getModuleInfo packageName directory fs entries = .ok info →
      packageName ∉ info.dependencies) ∧
    getModuleInfo ("pkg") ("types/pkg") selfRefFs ["index.d.ts"] =
      .ok ⟨["index.d.ts"], [], [], []⟩ := by
  refine ⟨?_, rfl⟩
  intro packageName directory fs entries info h
  unfold getModuleInfo at h
  split at h
  · cases h
  · next all ha =>
    split at h
    · cases h
    · next st hp =>
      cases h
      exact processAll_not_self all _ _ hp (by simp)

/-- C9, witness: `c9_no_self_dependency` on the self-referencing
package. -/
theorem c9_witness :
    getModuleInfo ("pkg") ("types/pkg") selfRefFs ["index.d.ts"] =
      .ok ⟨["index.d.ts"], [], [], []⟩ ∧
    ("pkg" : String) ∉ (⟨["index.d.ts"], [], [], []⟩ : ModuleInfo).dependencies :=
  ⟨rfl, c9_no_self_dependency.1 ("pkg") ("types/pkg") selfRefFs ["index.d.ts"]
    ⟨["index.d.ts"], [], [], []⟩ rfl⟩

/-! ## C2: declared modules -/

/-- C2, counterexample: a global script (not an external module, and not
exporting anything in the claim's sense) whose only statement is
`declare module "x" { }` still adds the name `x` to `declaredModules`,
refuting the claim's only-if direction. -/
theorem c2_counterexample :
    getModuleInfo ("pkg") ("types/pkg") ambientFs ["index.d.ts"] =
      .ok ⟨["index.d.ts"], [], ["x"], []⟩ ∧
    ambientModuleFile.isExternalModule = false ∧
    sourceFileExportsSomething ambientModuleFile.statements = false :=
  ⟨rfl, rfl, rfl⟩

/-- On an ok result, `assertNoWindowsSlashes` returns its argument. -/
theorem assertNoWindowsSlashes_ok {packageName fileName n : String}
    (h : assertNoWindowsSlashes packageName fileName = .ok n) : n = fileName := by
  unfold assertNoWindowsSlashes at h
  split at h
  · cases h
  · cases h
    rfl

/-- One global-script statement appends exactly its string-literal
ambient module name (if any) to `declaredModules`. -/
theorem processGlobalStatement_declared {packageName : String} {st stm : ClassifyState}
    {s : Statement} (hs : processGlobalStatement packageName st s = .ok stm) :
    stm.declaredModules = st.declaredModules ++ stringLitModuleNames (.cons s .nil) := by
  cases s with
  | moduleDecl d =>
    cases d with
    | mk name body =>
      cases name with
      | strLit n =>
        unfold processGlobalStatement at hs
        simp only [ModuleDeclaration.name] at hs
        split at hs
        · cases hs
        · next n2 hw =>
          cases hs
          simp [stringLitModuleNames, assertNoWindowsSlashes_ok hw]
      | ident n =>
        unfold processGlobalStatement at hs
        simp only [ModuleDeclaration.name] at hs
        split at hs
        · cases hs
        · cases hs
          simp [stringLitModuleNames]
        · cases hs
          simp [stringLitModuleNames]
  | importDecl ms => cases hs; simp [stringLitModuleNames]
  | exportDecl ms => cases hs; simp [stringLitModuleNames]
  | importEquals mr => cases hs; simp [stringLitModuleNames]
  | variableStatement ds => cases hs; simp [stringLitModuleNames]
  | enumDecl n => cases hs; simp [stringLitModuleNames]
  | classDecl n => cases hs; simp [stringLitModuleNames]
  | functionDecl n => cases hs; simp [stringLitModuleNames]
  | interfaceDecl => cases hs; simp [stringLitModuleNames]
  | typeAliasDecl => cases hs; simp [stringLitModuleNames]
  | namespaceExportDecl n => cases hs; simp [stringLitModuleNames]
  | otherStatement k => cases hs; simp [stringLitModuleNames]

/-- The statement fold of a global script appends exactly the
string-literal ambient module names to `declaredModules`. -/
theorem processGlobalStatements_declared {packageName : String} :
    ∀ (ss : StatementList) (st st2 : ClassifyState),
      processGlobalStatements packageName st ss = .ok st2 →
      st2.declaredModules = st.declaredModules ++ stringLitModuleNames ss
  | .nil, st, st2, h => by
    cases h
    simp [stringLitModuleNames]
  | .cons s rest, st, st2, h => by
    unfold processGlobalStatements at h
    split at h
    · cases h
    · next stm hs =>
      have hrest := processGlobalStatements_declared rest stm st2 h
      rw [hrest, processGlobalStatement_declared hs]
      simp [stringLitModuleNames]

/-- One classification step appends exactly the file's declared-modules
contribution. -/
theorem processSourceFile_declared {packageName fileName : String} {fd : FileData}
    {st st2 : ClassifyState} (h : processSourceFile packageName fileName fd st = .ok st2) :
    st2.declaredModules =
      st.declaredModules ++ declaredModulesContribution packageName fileName fd := by
  unfold processSourceFile at h
  split at h
  · cases h
  · next refs him =>
    unfold declaredModulesContribution
    by_cases hext : fd.isExternalModule
    · rw [if_pos hext] at h ⊢
      by_cases hexp : sourceFileExportsSomething fd.statements
      · rw [if_pos hexp] at h ⊢
        split at h
        · cases h
        · next name hpm =>
          rw [hpm]
          split at h
          · cases h
            simp
          · cases h
            simp
      · rw [if_neg hexp] at h
        rw [if_neg hexp]
        cases h
        simp
    · rw [if_neg hext] at h ⊢
      have h2 := processGlobalStatements_declared fd.statements _ _ h
      simpa using h2

/-- The classification loop appends the concatenated per-file
declared-modules contributions, in map order. -/
theorem processAll_declared {packageName : String} :
    ∀ (files : List (String × FileData)) (st st2 : ClassifyState),
      processAll packageName files st = .ok st2 →
      st2.declaredModules = st.declaredModules ++
        files.flatMap (fun kv => declaredModulesContribution packageName kv.1 kv.2) := by
  intro files
  induction files with
  | nil =>
    intro st st2 h
    cases h
    simp
  | cons kv rest ih =>
    intro st st2 h
    unfold processAll at h
    split at h
    · cases h
    · next stm hp =>
      rw [ih stm st2 h, processSourceFile_declared hp]
      simp

/-- Monotonicity of `StatementList.any` falsity: a predicate implied by
`q` inheriting `any p = false` forces `any q = false`. -/
theorem statementList_any_false_mono (p q : Statement → Bool)
    (hpq : ∀ s, q s = true → p s = true) :
    ∀ (ss : StatementList), ss.any p = false → ss.any q = false
  | .nil, _ => rfl
  | .cons s rest, h => by
    unfold StatementList.any at h ⊢
    rcases Bool.or_eq_false_iff.mp h with ⟨h1, h2⟩
    rw [Bool.or_eq_false_iff]
    refine ⟨?_, statementList_any_false_mono p q hpq rest h2⟩
    cases hq : q s with
    | false => rfl
    | true => rw [hpq s hq] at h1; cases h1

/-- A statement list with no non-import statement declares no
string-literal ambient modules. -/
theorem stringLitModuleNames_nil_of_only_imports :
    ∀ (ss : StatementList),
      ss.any (fun s =>
        match s with
        | .importDecl _ => false
        | .importEquals _ => false
        | _ => true) = false →
      stringLitModuleNames ss = []
  | .nil, _ => rfl
  | .cons s rest, h => by
    unfold StatementList.any at h
    rcases Bool.or_eq_false_iff.mp h with ⟨h1, h2⟩
    unfold stringLitModuleNames
    rw [stringLitModuleNames_nil_of_only_imports rest h2]
    cases s with
    | importDecl ms => simp
    | importEquals mr => simp
    | moduleDecl d => cases h1
    | exportDecl ms => cases h1
    | variableStatement ds => cases h1
    | enumDecl n => cases h1
    | classDecl n => cases h1
    | functionDecl n => cases h1
    | interfaceDecl => cases h1
    | typeAliasDecl => cases h1
    | namespaceExportDecl n => cases h1
    | otherStatement k => cases h1

/-- C2, amended: on a successful run, `declaredModules` is exactly the
concatenation, over the resolved files, of each file's contribution: an
external module contributes its derived module name precisely when it
exports something (it has a top-level statement that is neither an import
form nor an ambient module keyed by a string literal), and a global
script additionally contributes the literal names of its string-literal
ambient module declarations; a file containing only import statements
contributes nothing either way. -/
theorem c2_declaredModules :
    (∀ (packageName directory : String) (fs : FS) (entries : List String)
      (all : List (String × FileData)) (info : ModuleInfo),
      allReferencedFiles fs directory entries = .ok all →
      getModuleInfo packageName directory fs entries = .ok info →
      info.declaredModules =
        all.flatMap (fun kv => declaredModulesContribution packageName kv.1 kv.2)) ∧
    (∀ (packageName fileName : String) (fd : FileData),
      fd.isExternalModule = true → sourceFileExportsSomething fd.statements = true →
      ∀ name, properModuleName packageName fileName = .ok name →
      declaredModulesContribution packageName fileName fd = [name]) ∧
    (∀ (packageName fileName : String) (fd : FileData),
      fd.isExternalModule = true → sourceFileExportsSomething fd.statements = false →
      declaredModulesContribution packageName fileName fd = []) ∧
    (∀ (packageName fileName : String) (fd : FileData),
      fd.statements.any (fun s =>
        match s with
        | .importDecl _ => false
        | .importEquals _ => false
        | _ => true) = false →
      declaredModulesContribution packageName fileName fd = []) := by
  refine ⟨?_, ?_, ?_, ?_⟩
  · intro packageName directory fs entries all info ha h
    unfold getModuleInfo at h
    split at h
    · cases h
    · next all2 ha2 =>
      rw [ha] at ha2
      cases ha2
      split at h
      · cases h
      · next st hp =>
        cases h
        simpa using processAll_declared _ _ _ hp
  · intro packageName fileName fd hext hexp name hpm
    unfold declaredModulesContribution
    rw [if_pos hext, if_pos hexp, hpm]
  · intro packageName fileName fd hext hexp
    unfold declaredModulesContribution
    rw [if_pos hext, hexp]
    simp
  · intro packageName fileName fd hany
    unfold declaredModulesContribution
    by_cases hext : fd.isExternalModule
    · rw [if_pos hext]
      have hexp : sourceFileExportsSomething fd.statements = false := by
        unfold sourceFileExportsSomething
        exact statementList_any_false_mono _ _ (fun s hq => by
          cases s <;> simp_all) fd.statements hany
      rw [hexp]
      simp
    · rw [if_neg hext]
      exact stringLitModuleNames_nil_of_only_imports fd.statements hany

/-- C2, witness: `c2_declaredModules` on the package whose ambient module
`"x"` is declared from a global script next to an external module
`b.d.ts` without exports. -/
theorem c2_witness :
    allReferencedFiles nestedImportsFs ("types/pkg") ["index.d.ts"] =
      .ok [("index.d.ts", nestedImportsFile), ("b.d.ts", emptyScript)] ∧
    getModuleInfo ("pkg") ("types/pkg") nestedImportsFs ["index.d.ts"] =
      .ok ⟨["b.d.ts", "index.d.ts"], ["@s/p"], ["x"], []⟩ ∧
    (⟨["b.d.ts", "index.d.ts"], ["@s/p"], ["x"], []⟩ : ModuleInfo).declaredModules =
      [("index.d.ts", nestedImportsFile), ("b.d.ts", emptyScript)].flatMap
        (fun kv => declaredModulesContribution ("pkg") kv.1 kv.2) :=
  ⟨rfl, rfl, c2_declaredModules.1 ("pkg") ("types/pkg") nestedImportsFs ["index.d.ts"]
    [("index.d.ts", nestedImportsFile), ("b.d.ts", emptyScript)]
    ⟨["b.d.ts", "index.d.ts"], ["@s/p"], ["x"], []⟩ rfl rfl⟩

/-! ## C10: imports inside string-named ambient modules -/

mutual

/-- A successful `importsList` returns exactly the total import-text
collection `rawImportTexts`. -/
theorem importsList_eq_raw : ∀ (ss : StatementList) (l : List String),
    importsList ss = .ok l → l = rawImportTexts ss
  | .nil, l, h => by
    cases h
    rfl
  | .cons s rest, l, h => by
    unfold importsList at h
    split at h
    · cases h
    · next hd hhd =>
      split at h
      · cases h
      · next tl htl =>
        cases h
        rw [rawImportTexts, importsOne_eq_raw s hd hhd, importsList_eq_raw rest tl htl]

/-- Single-statement case of `importsList_eq_raw`. -/
theorem importsOne_eq_raw : ∀ (s : Statement) (l : List String),
    importsOne s = .ok l → l = rawImportText1 s
  | .importDecl ms, l, h => by
    cases h
    cases ms with
    | none => rfl
    | some e => cases e <;> rfl
  | .exportDecl ms, l, h => by
    cases h
    cases ms with
    | none => rfl
    | some e => cases e <;> rfl
  | .importEquals mr, l, h => by
    unfold importsOne at h
    split at h
    · split at h
      · cases h
      · next t hpr =>
        cases h
        unfold parseRequire at hpr
        split at hpr
        · next t2 => cases hpr; rfl
        · cases hpr
    · cases h
      rfl
  | .moduleDecl d, l, h => by
    rw [show importsOne (.moduleDecl d) = importsModule d from rfl] at h
    rw [show rawImportText1 (.moduleDecl d) = rawImportModule d from rfl]
    exact importsModule_eq_raw d l h
  | .variableStatement ds, l, h => by cases h; rfl
  | .enumDecl n, l, h => by cases h; rfl
  | .classDecl n, l, h => by cases h; rfl
  | .functionDecl n, l, h => by cases h; rfl
  | .interfaceDecl, l, h => by cases h; rfl
  | .typeAliasDecl, l, h => by cases h; rfl
  | .namespaceExportDecl n, l, h => by cases h; rfl
  | .otherStatement k, l, h => by cases h; rfl

/-- Module-declaration case of `importsList_eq_raw`. -/
theorem importsModule_eq_raw : ∀ (d : ModuleDeclaration) (l : List String),
    importsModule d = .ok l → l = rawImportModule d
  | .mk (.ident n) body, l, h => by
    cases h
    rfl
  | .mk (.strLit n) .noBody, l, h => by
    cases h
  | .mk (.strLit n) (.body (.moduleDecl d2)), l, h => by
    cases h
  | .mk (.strLit n) (.body (.moduleBlock ss)), l, h => by
    rw [show importsModule (.mk (.strLit n) (.body (.moduleBlock ss))) = importsList ss from rfl]
      at h
    rw [show rawImportModule (.mk (.strLit n) (.body (.moduleBlock ss))) = rawImportTexts ss
      from rfl]
    exact importsList_eq_raw ss l h

end

/-- The shorthand ambient module `declare module "x";` makes the whole
drain of the `imports` generator fail with the modelled `TypeError`, as
the source does at `imports(body as ts.ModuleBlock)`: every statement
list containing one is excluded by the `importsList`/`referencedFilesIn`
success hypotheses of the theorems below. -/
theorem importsList_shorthand_error (n : String) (rest : StatementList) :
    importsList (.cons (.moduleDecl (.mk (.strLit n) .noBody)) rest) =
      .error ⟨.typeError,
        "TypeError: cannot read statements of a module with no block body", []⟩ := rfl

/-- C10: import collection recurses into the bodies of ambient modules
keyed by string literals — a successful `importsList` is exactly the
total collection `rawImportTexts`, which inlines the imports of a
string-named module block at its position; and the traversal and the
dependency extraction treat those nested imports like top-level ones: in
the fixture whose global script holds
`declare module "x" { import "./b"; import "@s/p/q" }`, the relative
target is followed (so `b.d.ts` is resolved into `declFiles`) and the
non-relative target contributes its dependency root `@s/p`. -/
theorem c10_nested_imports :
    (∀ (ss : StatementList) (l : List String),
      importsList ss = .ok l → l = rawImportTexts ss) ∧
    (∀ (name : String) (inner : StatementList) (rest : StatementList),
      rawImportTexts (.cons (.moduleDecl (.mk (.strLit name) (.body (.moduleBlock inner)))) rest) =
        rawImportTexts inner ++ rawImportTexts rest) ∧
    getModuleInfo ("pkg") ("types/pkg") nestedImportsFs ["index.d.ts"] =
      .ok ⟨["b.d.ts", "index.d.ts"], ["@s/p"], ["x"], []⟩ ∧
    ("b.d.ts" : String) ∈ ["b.d.ts", "index.d.ts"] ∧
    ("@s/p" : String) ∈ ["@s/p"] := by
  refine ⟨importsList_eq_raw, ?_, rfl, by decide, by decide⟩
  intro name inner rest
  rfl

/-- C10, witness: `c10_nested_imports` on the statements of the fixture
file whose imports sit inside `declare module "x"`. -/
theorem c10_witness :
    importsList nestedImportsFile.statements = .ok ["./b", "@s/p/q"] ∧
    (["./b", "@s/p/q"] : List String) = rawImportTexts nestedImportsFile.statements :=
  ⟨rfl, c10_nested_imports.1 nestedImportsFile.statements ["./b", "@s/p/q"] rfl⟩

/-! ## C6: test dependencies -/

/-- Membership in `setAdd`, as an equivalence. -/
theorem mem_setAdd_iff {l : List String} {x y : String} :
    y ∈ setAdd l x ↔ y = x ∨ y ∈ l := by
  constructor
  · exact mem_setAdd
  · intro h
    unfold setAdd
    rcases h with h | h
    · subst h
      by_cases hx : y ∈ l
      · rw [if_pos hx]
        exact hx
      · rw [if_neg hx]
        simp
    · by_cases hx : x ∈ l
      · rw [if_pos hx]
        exact h
      · rw [if_neg hx]
        exact List.mem_append_left _ h

/-- A successful type-reference pass finds no redundant and no
self-referencing target. -/
theorem testTypeRefs_ok_clean {pkgName filePath : String} {dependencies : List String} :
    ∀ (trefs acc acc2 : List String),
      testTypeRefs pkgName filePath dependencies acc trefs = .ok acc2 →
      ∀ t ∈ trefs, t ∉ dependencies ∧ t ≠ pkgName := by
  intro trefs
  induction trefs with
  | nil =>
    intro acc acc2 h t ht
    cases ht
  | cons r rest ih =>
    intro acc acc2 h t ht
    unfold testTypeRefs at h
    split at h
    · cases h
    · split at h
      · cases h
      · next hdep hpkg =>
        rcases List.mem_cons.mp ht with rfl | ht2
        · exact ⟨hdep, hpkg⟩
        · exact ih _ _ h t ht2

/-- A successful type-reference pass adds exactly the targets to the
accumulated set. -/
theorem testTypeRefs_ok_mem {pkgName filePath : String} {dependencies : List String} :
    ∀ (trefs acc acc2 : List String),
      testTypeRefs pkgName filePath dependencies acc trefs = .ok acc2 →
      ∀ x, x ∈ acc2 ↔ x ∈ acc ∨ x ∈ trefs := by
  intro trefs
  induction trefs with
  | nil =>
    intro acc acc2 h x
    cases h
    simp
  | cons r rest ih =>
    intro acc acc2 h x
    unfold testTypeRefs at h
    split at h
    · cases h
    · split at h
      · cases h
      · have h2 := ih _ _ h x
        rw [h2, mem_setAdd_iff]
        constructor
        · rintro ((h3 | h3) | h3)
          · exact .inr (by simp [h3])
          · exact .inl h3
          · exact .inr (List.mem_cons_of_mem _ h3)
        · rintro (h3 | h3)
          · exact .inl (.inr h3)
          · rcases List.mem_cons.mp h3 with rfl | h4
            · exact .inl (.inl rfl)
            · exact .inr h4

/-- A redundant or self-referencing type-reference target makes the
type-reference pass fail. -/
theorem testTypeRefs_error_of_viol {pkgName filePath : String} {dependencies : List String} :
    ∀ (trefs : List String), (∃ t ∈ trefs, t ∈ dependencies ∨ t = pkgName) →
      ∀ acc, ∃ e, testTypeRefs pkgName filePath dependencies acc trefs = .error e := by
  intro trefs
  induction trefs with
  | nil =>
    rintro ⟨t, ht, _⟩ acc
    cases ht
  | cons r rest ih =>
    rintro ⟨t, ht, hviol⟩ acc
    unfold testTypeRefs
    by_cases hdep : r ∈ dependencies
    · rw [if_pos hdep]
      exact ⟨_, rfl⟩
    · rw [if_neg hdep]
      by_cases hpkg : r = pkgName
      · rw [if_pos hpkg]
        exact ⟨_, rfl⟩
      · rw [if_neg hpkg]
        rcases List.mem_cons.mp ht with rfl | ht2
        · rcases hviol with h | h
          · exact absurd h hdep
          · exact absurd h hpkg
        · exact ih ⟨t, ht2, hviol⟩ _

/-- Membership after the guarded import fold of `processTestFile`. -/
theorem foldl_imports_mem {pkgName : String} {dependencies : List String} :
    ∀ (imps acc : List String) (x : String),
      x ∈ imps.foldl
        (fun a imported =>
          if !strStartsWith imported (".") ∧ imported ∉ dependencies ∧ imported ≠ pkgName then
            setAdd a imported
          else a) acc ↔
      x ∈ acc ∨ (x ∈ imps ∧ strStartsWith x (".") = false ∧ x ∉ dependencies ∧ x ≠ pkgName) := by
  intro imps
  induction imps with
  | nil =>
    intro acc x
    simp
  | cons i rest ih =>
    intro acc x
    simp only [List.foldl_cons]
    by_cases hc : !strStartsWith i (".") ∧ i ∉ dependencies ∧ i ≠ pkgName
    · rw [if_pos hc]
      rw [ih (setAdd acc i) x, mem_setAdd_iff]
      constructor
      · rintro ((h3 | h3) | h3)
        · subst h3
          exact .inr ⟨by simp, by simpa using hc.1, hc.2.1, hc.2.2⟩
        · exact .inl h3
        · exact .inr ⟨List.mem_cons_of_mem _ h3.1, h3.2⟩
      · rintro (h3 | h3)
        · exact .inl (.inr h3)
        · rcases List.mem_cons.mp h3.1 with rfl | h4
          · exact .inl (.inl rfl)
          · exact .inr ⟨h4, h3.2⟩
    · rw [if_neg hc]
      rw [ih acc x]
      constructor
      · rintro (h3 | h3)
        · exact .inl h3
        · exact .inr ⟨List.mem_cons_of_mem _ h3.1, h3.2⟩
      · rintro (h3 | h3)
        · exact .inl h3
        · rcases List.mem_cons.mp h3.1 with rfl | h4
          · exact absurd ⟨by simpa using h3.2.1, h3.2.2.1, h3.2.2.2⟩ hc
          · exact .inr ⟨h4, h3.2⟩

/-- A clean type-reference list passes the type-reference checks. -/
theorem testTypeRefs_ok_of_clean {pkgName filePath : String} {dependencies : List String} :
    ∀ (trefs : List String), (∀ t ∈ trefs, t ∉ dependencies ∧ t ≠ pkgName) →
      ∀ acc, ∃ acc2, testTypeRefs pkgName filePath dependencies acc trefs = .ok acc2 := by
  intro trefs
  induction trefs with
  | nil =>
    intro hclean acc
    exact ⟨acc, rfl⟩
  | cons r rest ih =>
    intro hclean acc
    have hr := hclean r (by simp)
    unfold testTypeRefs
    rw [if_neg hr.1, if_neg hr.2]
    exact ih (fun t ht => hclean t (List.mem_cons_of_mem _ ht)) _

/-- A violating test file makes `processTestFile` fail. -/
theorem processTestFile_error {pkgName directory : String} {fs : FS} {dependencies : List String}
    {f : String} {fd : FileData} (hfd : fsLookup fs f = some fd)
    (hviol : testFileViolation pkgName dependencies fd) :
    ∀ acc, ∃ e, processTestFile pkgName directory fs dependencies acc f = .error e := by
  intro acc
  unfold processTestFile readFileAndThrowOnBOM
  rw [hfd]
  simp only
  cases hrefs : fd.referencedFiles with
  | cons r rest => exact ⟨_, rfl⟩
  | nil =>
    rcases hviol with h | h
    · exact absurd hrefs h
    · obtain ⟨e, he⟩ := @testTypeRefs_error_of_viol pkgName (pathJoin pkgName f)
        dependencies fd.typeReferenceDirectives h acc
      rw [he]
      exact ⟨e, rfl⟩

/-- A clean test file passes `processTestFile`, contributing exactly its
type-reference targets and its filtered non-relative imports. -/
theorem processTestFile_ok {pkgName directory : String} {fs : FS} {dependencies : List String}
    {f : String} {fd : FileData} (hfd : fsLookup fs f = some fd)
    (himps : (importsList fd.statements).isOk = true)
    (hclean : ¬ testFileViolation pkgName dependencies fd) :
    ∀ acc, ∃ acc2, processTestFile pkgName directory fs dependencies acc f = .ok acc2 ∧
      ∀ x, (x ∈ acc2 ↔ x ∈ acc ∨ testFileContrib pkgName dependencies fd x) := by
  intro acc
  unfold testFileViolation at hclean
  push_neg at hclean
  obtain ⟨hrefs, htrefs⟩ := hclean
  obtain ⟨imps, himps2⟩ : ∃ imps, importsList fd.statements = .ok imps := by
    cases h2 : importsList fd.statements with
    | error e => rw [h2] at himps; cases himps
    | ok l => exact ⟨l, rfl⟩
  obtain ⟨acc2, hacc2⟩ := @testTypeRefs_ok_of_clean pkgName (pathJoin pkgName f)
    dependencies fd.typeReferenceDirectives (fun t ht => htrefs t ht) acc
  refine ⟨imps.foldl
    (fun a imported =>
      if !strStartsWith imported (".") ∧ imported ∉ dependencies ∧ imported ≠ pkgName then
        setAdd a imported
      else a) acc2, ?_, ?_⟩
  · unfold processTestFile readFileAndThrowOnBOM
    rw [hfd]
    simp only
    rw [hrefs]
    simp only
    rw [hacc2]
    simp only
    rw [himps2]
  · intro x
    rw [foldl_imports_mem imps acc2 x, testTypeRefs_ok_mem _ _ _ hacc2 x]
    unfold testFileContrib
    constructor
    · rintro ((h | h) | h)
      · exact .inl h
      · exact .inr (.inl h)
      · exact .inr (.inr ⟨imps, himps2, h⟩)
    · rintro (h | (h | ⟨imps2, himps3, h⟩))
      · exact .inl (.inl h)
      · exact .inl (.inr h)
      · rw [himps2] at himps3
        cases himps3
        exact .inr h

/-- The test-file loop: a reachable violation forces failure, and a
violation-free run succeeds with exactly the accumulated contributions. -/
theorem testFilesLoop_spec {pkgName directory : String} {fs : FS} {dependencies : List String} :
    ∀ (files : List String) (acc : List String),
      (∀ f ∈ files, ∃ fd, fsLookup fs f = some fd ∧ (importsList fd.statements).isOk = true) →
      ((∃ f ∈ files, ∃ fd, fsLookup fs f = some fd ∧ testFileViolation pkgName dependencies fd) →
        ∃ e, testFilesLoop pkgName directory fs dependencies acc files = .error e) ∧
      ((∀ f ∈ files, ∀ fd, fsLookup fs f = some fd → ¬ testFileViolation pkgName dependencies fd) →
        ∃ l, testFilesLoop pkgName directory fs dependencies acc files = .ok l ∧
          ∀ x, (x ∈ l ↔ x ∈ acc ∨ ∃ f ∈ files, ∃ fd, fsLookup fs f = some fd ∧
            testFileContrib pkgName dependencies fd x)) := by
  intro files
  induction files with
  | nil =>
    intro acc hread
    constructor
    · rintro ⟨f, hf, _⟩
      cases hf
    · intro hclean
      refine ⟨acc, rfl, ?_⟩
      intro x
      simp
  | cons f rest ih =>
    intro acc hread
    obtain ⟨fd, hfd, himps⟩ := hread f (by simp)
    have hreadr : ∀ g ∈ rest, ∃ fd, fsLookup fs g = some fd ∧
        (importsList fd.statements).isOk = true :=
      fun g hg => hread g (List.mem_cons_of_mem _ hg)
    constructor
    · rintro ⟨g, hg, fdg, hfdg, hviol⟩
      by_cases hv : testFileViolation pkgName dependencies fd
      · obtain ⟨e, he⟩ := processTestFile_error hfd hv acc
        refine ⟨e, ?_⟩
        unfold testFilesLoop
        rw [he]
      · obtain ⟨acc2, hacc2, _⟩ := processTestFile_ok hfd himps hv acc
        rcases List.mem_cons.mp hg with rfl | hg2
        · rw [hfd] at hfdg
          cases hfdg
          exact absurd hviol hv
        · obtain ⟨e, he⟩ := (ih acc2 hreadr).1 ⟨g, hg2, fdg, hfdg, hviol⟩
          refine ⟨e, ?_⟩
          unfold testFilesLoop
          rw [hacc2]
          exact he
    · intro hclean
      have hv : ¬ testFileViolation pkgName dependencies fd := hclean f (by simp) fd hfd
      obtain ⟨acc2, hacc2, hmem2⟩ := processTestFile_ok hfd himps hv acc
      obtain ⟨l, hl, hmeml⟩ := (ih acc2 hreadr).2
        (fun g hg => hclean g (List.mem_cons_of_mem _ hg))
      refine ⟨l, ?_, ?_⟩
      · unfold testFilesLoop
        rw [hacc2]
        exact hl
      · intro x
        rw [hmeml x, hmem2 x]
        constructor
        · rintro ((h | h) | h)
          · exact .inl h
          · exact .inr ⟨f, by simp, fd, hfd, h⟩
          · obtain ⟨g, hg, fdg, hfdg, hc⟩ := h
            exact .inr ⟨g, List.mem_cons_of_mem _ hg, fdg, hfdg, hc⟩
        · rintro (h | ⟨g, hg, fdg, hfdg, hc⟩)
          · exact .inl (.inl h)
          · rcases List.mem_cons.mp hg with rfl | hg2
            · rw [hfd] at hfdg
              cases hfdg
              exact .inl (.inr hc)
            · exact .inr ⟨g, hg2, fdg, hfdg, hc⟩

/-- C6: with every test file readable and its imports parseable,
`getTestDependencies` fails exactly when some test file uses a path-style
reference directive, or has a type-reference directive whose target is
already a known dependency (redundant) or names the package itself
(self-reference); and on success the returned set holds exactly the
type-reference-directive targets plus the non-relative import targets not
among the known dependencies and different from the package name — an
already-known import target is silently skipped, never an error. -/
theorem c6_getTestDependencies :
    ∀ (pkgName directory : String) (fs : FS) (testFiles dependencies : List String),
      (∀ f ∈ testFiles, ∃ fd, fsLookup fs f = some fd ∧
        (importsList fd.statements).isOk = true) →
      ((∃ e, getTestDependencies pkgName directory fs testFiles dependencies = .error e) ↔
        ∃ f ∈ testFiles, ∃ fd, fsLookup fs f = some fd ∧
          testFileViolation pkgName dependencies fd) ∧
      (∀ l, getTestDependencies pkgName directory fs testFiles dependencies = .ok l →
        ∀ x, (x ∈ l ↔ ∃ f ∈ testFiles, ∃ fd, fsLookup fs f = some fd ∧
          testFileContrib pkgName dependencies fd x)) := by
  intro pkgName directory fs testFiles dependencies hread
  have hspec := @testFilesLoop_spec pkgName directory fs dependencies testFiles [] hread
  constructor
  · constructor
    · rintro ⟨e, he⟩
      by_contra hnv
      push_neg at hnv
      have hclean : ∀ f ∈ testFiles, ∀ fd, fsLookup fs f = some fd →
          ¬ testFileViolation pkgName dependencies fd := by
        intro f hf fd hfd hviol
        exact hnv f hf fd hfd hviol
      obtain ⟨l, hl, _⟩ := hspec.2 hclean
      unfold getTestDependencies at he
      rw [hl] at he
      cases he
    · intro hviol
      exact hspec.1 hviol
  · intro l hok x
    have hclean : ∀ f ∈ testFiles, ∀ fd, fsLookup fs f = some fd →
        ¬ testFileViolation pkgName dependencies fd := by
      intro f hf fd hfd hviol
      obtain ⟨e, he⟩ := hspec.1 ⟨f, hf, fd, hfd, hviol⟩
      unfold getTestDependencies at hok
      rw [he] at hok
      cases hok
    obtain ⟨l2, hl2, hmem⟩ := hspec.2 hclean
    unfold getTestDependencies at hok
    rw [hok] at hl2
    cases hl2
    have := hmem x
    simpa using this

/-- C6, witness: `c6_getTestDependencies` on the test file importing the
known dependency `known` (silently skipped) and the novel `novel`
(included); the run succeeds with exactly `[novel]`. -/
theorem c6_witness :
    (∀ f ∈ (["pkg-tests.ts"] : List String), ∃ fd, fsLookup testImportsFs f = some fd ∧
      (importsList fd.statements).isOk = true) ∧
    getTestDependencies ("pkg") ("types/pkg") testImportsFs ["pkg-tests.ts"] ["known"] =
      .ok ["novel"] ∧
    (∀ l, getTestDependencies ("pkg") ("types/pkg") testImportsFs ["pkg-tests.ts"] ["known"] =
        .ok l →
      ∀ x, (x ∈ l ↔ ∃ f ∈ (["pkg-tests.ts"] : List String), ∃ fd,
        fsLookup testImportsFs f = some fd ∧ testFileContrib ("pkg") ["known"] fd x)) := by
  have hread : ∀ f ∈ (["pkg-tests.ts"] : List String), ∃ fd,
      fsLookup testImportsFs f = some fd ∧ (importsList fd.statements).isOk = true := by
    intro f hf
    rcases List.mem_singleton.mp hf with rfl
    exact ⟨testImportsFile, rfl, rfl⟩
  exact ⟨hread, rfl,
    (c6_getTestDependencies ("pkg") ("types/pkg") testImportsFs ["pkg-tests.ts"] ["known"]
      hread).2⟩

/-! ## C4: no parent references -/

/-- What a successful `addReference` guarantees: no Windows separators,
no escape from the package directory, and the normalized text. -/
theorem addReference_ok_props {directory srcFileName subDirectory : String} {exact : Bool}
    {text : String} {r : Reference}
    (h : addReference directory srcFileName subDirectory exact text = .ok r) :
    hasWindowsSlashes text = false ∧
    strStartsWith (normalizeSlashes (pathNormalize (joinPaths subDirectory text))) ("..") = false ∧
    r = ⟨exact, normalizeSlashes (pathNormalize (joinPaths subDirectory text))⟩ := by
  unfold addReference at h
  cases hw : assertNoWindowsSlashes srcFileName text with
  | error e =>
    rw [hw] at h
    cases h
  | ok t2 =>
    rw [hw] at h
    have ht2 : t2 = text := assertNoWindowsSlashes_ok hw
    subst ht2
    have hwin : hasWindowsSlashes t2 = false := by
      unfold assertNoWindowsSlashes at hw
      split at hw
      · cases hw
      · next hcond => simpa using hcond
    simp only at h
    split at h
    · cases h
    · next hesc =>
      cases h
      exact ⟨hwin, by simpa using hesc, rfl⟩

/-- An escaping reference target (without Windows separators) makes
`addReference` raise the parent-reference error. -/
theorem addReference_error_of_escape {directory srcFileName subDirectory : String} {exact : Bool}
    {text : String} (hwin : hasWindowsSlashes text = false)
    (hesc : strStartsWith (normalizeSlashes (pathNormalize (joinPaths subDirectory text))) ("..")
      = true) :
    addReference directory srcFileName subDirectory exact text =
      .error ⟨.illegalParentReference,
        "In " ++ directory ++ " " ++ srcFileName ++
          ": Definitions must use global references to other packages, not parent (\"../xxx\") references.(Based on reference " ++
          text ++ ")", []⟩ := by
  unfold addReference assertNoWindowsSlashes
  rw [hwin]
  simp only [Bool.false_eq_true, if_false]
  rw [if_pos hesc]

/-- Every target of a successful `addRefAll` went through `addReference`
successfully. -/
theorem addRefAll_ok_forall {directory srcFileName subDirectory : String} {exact : Bool} :
    ∀ {l : List String} {rs : List Reference},
      addRefAll directory srcFileName subDirectory exact l = .ok rs →
      ∀ t ∈ l, ∃ r ∈ rs, addReference directory srcFileName subDirectory exact t = .ok r := by
  intro l
  induction l with
  | nil =>
    intro rs h t ht
    cases ht
  | cons x rest ih =>
    intro rs h t ht
    unfold addRefAll at h
    split at h
    · cases h
    · next r hr =>
      split at h
      · cases h
      · next rs2 hrs2 =>
        cases h
        rcases List.mem_cons.mp ht with rfl | ht2
        · exact ⟨r, by simp, hr⟩
        · obtain ⟨r2, hr2m, hr2⟩ := ih hrs2 t ht2
          exact ⟨r2, List.mem_cons_of_mem _ hr2m, hr2⟩

/-- Every reference returned by a successful `addRefAll` comes from one
of the raw targets. -/
theorem addRefAll_ok_mem_rev {directory srcFileName subDirectory : String} {exact : Bool} :
    ∀ {l : List String} {rs : List Reference},
      addRefAll directory srcFileName subDirectory exact l = .ok rs →
      ∀ r ∈ rs, ∃ t ∈ l, addReference directory srcFileName subDirectory exact t = .ok r := by
  intro l
  induction l with
  | nil =>
    intro rs h r hr
    cases h
    cases hr
  | cons x rest ih =>
    intro rs h r hr
    unfold addRefAll at h
    split at h
    · cases h
    · next r2 hr2 =>
      split at h
      · cases h
      · next rs2 hrs2 =>
        cases h
        rcases List.mem_cons.mp hr with rfl | hrm
        · exact ⟨x, by simp, hr2⟩
        · obtain ⟨t, htm, ht⟩ := ih hrs2 r hrm
          exact ⟨t, List.mem_cons_of_mem _ htm, ht⟩

/-- `addRefAll` surfaces the first failing target's error. -/
theorem addRefAll_error_first {directory srcFileName subDirectory : String} {exact : Bool}
    {t : String} {e : ErrInfo} :
    ∀ (l1 : List String) (l2 : List String),
      (∀ x ∈ l1, ∃ r, addReference directory srcFileName subDirectory exact x = .ok r) →
      addReference directory srcFileName subDirectory exact t = .error e →
      addRefAll directory srcFileName subDirectory exact (l1 ++ t :: l2) = .error e := by
  intro l1
  induction l1 with
  | nil =>
    intro l2 hok herr
    rw [List.nil_append]
    unfold addRefAll
    rw [herr]
  | cons x rest ih =>
    intro l2 hok herr
    obtain ⟨r, hr⟩ := hok x (by simp)
    rw [List.cons_append]
    unfold addRefAll
    rw [hr, ih l2 (fun y hy => hok y (List.mem_cons_of_mem _ hy)) herr]

/-- A failing path-reference pass fails the whole reference drain. -/
theorem referencedFilesIn_error_pathRefs {directory subDirectory srcFileName : String}
    {fd : FileData} {e : ErrInfo}
    (h : addRefAll directory srcFileName subDirectory true fd.referencedFiles = .error e) :
    referencedFilesIn directory subDirectory srcFileName fd = .error e := by
  unfold referencedFilesIn
  rw [h]

/-- One traversal step that resolves its reference but fails to drain the
file's references propagates that error. -/
theorem goRef_step_error {fs : FS} {directory referencedFrom : String} {r : Reference}
    {fuel : Nat} {seen : List String} {all : List (String × FileData)} {work : List WorkItem}
    {fn : String} {fd : FileData} {err : ErrInfo}
    (h1 : r.text ∉ seen)
    (h2 : resolveRef fs directory referencedFrom r = .ok (fn, fd))
    (h3 : referencedFilesIn directory (pathDirname fn) fn fd = .error err) :
    goRef fs directory (fuel + 1) seen all ((referencedFrom, r) :: work) = .error err := by
  unfold goRef
  rw [if_neg h1, h2]
  simp only
  rw [h3]

/-- Membership in the result map after `Map.set`. -/
theorem mem_mapSet : ∀ (all : List (String × FileData)) (fn : String) (fd : FileData)
    (kv : String × FileData), kv ∈ mapSet all fn fd → kv = (fn, fd) ∨ kv ∈ all := by
  intro all
  induction all with
  | nil =>
    intro fn fd kv h
    unfold mapSet at h
    rcases List.mem_singleton.mp h with rfl
    exact .inl rfl
  | cons kv0 rest ih =>
    intro fn fd kv h
    unfold mapSet at h
    split at h
    · rcases List.mem_cons.mp h with rfl | h2
      · exact .inl rfl
      · exact .inr (List.mem_cons_of_mem _ h2)
    · rcases List.mem_cons.mp h with rfl | h2
      · exact .inr (by simp)
      · rcases ih fn fd kv h2 with h3 | h3
        · exact .inl h3
        · exact .inr (List.mem_cons_of_mem _ h3)

/-- Every file recorded by a successful traversal had its references
drained successfully; any property that follows from a successful drain
therefore holds of every recorded file. -/
theorem goRef_ok_forall {fs : FS} {directory : String} (P : String × FileData → Prop)
    (hP : ∀ fn fd refs, referencedFilesIn directory (pathDirname fn) fn fd = .ok refs →
      P (fn, fd)) :
    ∀ (fuel : Nat) (seen : List String) (all : List (String × FileData)) (work : List WorkItem)
      (m : List (String × FileData)),
      goRef fs directory fuel seen all work = .ok m →
      (∀ kv ∈ all, P kv) → ∀ kv ∈ m, P kv := by
  intro fuel
  induction fuel with
  | zero =>
    intro seen all work m h hall
    cases work with
    | nil =>
      cases h
      exact hall
    | cons it rest => cases h
  | succ fuel ih =>
    intro seen all work m h hall
    cases work with
    | nil =>
      cases h
      exact hall
    | cons it rest =>
      obtain ⟨referencedFrom, r⟩ := it
      unfold goRef at h
      split at h
      · exact ih _ _ _ _ h hall
      · split at h
        · cases h
        · next fn fd hres =>
          split at h
          · cases h
          · next refs hrefs =>
            refine ih _ _ _ _ h ?_
            intro kv hkv
            rcases mem_mapSet _ _ _ _ hkv with rfl | h2
            · exact hP fn fd refs hrefs
            · exact hall kv h2

/-- A successful reference drain leaves no escaping target: every
path-reference directive, and every relative import, joins and
normalizes to a path inside the package directory. -/
theorem referencedFilesIn_ok_no_escape {directory subDirectory srcFileName : String}
    {fd : FileData} {refs : List Reference}
    (h : referencedFilesIn directory subDirectory srcFileName fd = .ok refs) :
    (∀ t ∈ fd.referencedFiles,
      strStartsWith (normalizeSlashes (pathNormalize (joinPaths subDirectory t))) ("..")
        = false) ∧
    (∀ imps, importsList fd.statements = .ok imps →
      ∀ t ∈ imps, strStartsWith t (".") = true →
        strStartsWith (normalizeSlashes (pathNormalize (joinPaths subDirectory t))) ("..")
          = false) := by
  unfold referencedFilesIn at h
  split at h
  · cases h
  · next pathRefs hpath =>
    split at h
    · cases h
    · next imps0 himps0 =>
      split at h
      · cases h
      · next importRefs himp =>
        constructor
        · intro t ht
          obtain ⟨r, _, hr⟩ := addRefAll_ok_forall hpath t ht
          exact (addReference_ok_props hr).2.1
        · intro imps heq t ht hrel
          rw [himps0] at heq
          cases heq
          have htf : t ∈ imps0.filter (fun ref => strStartsWith ref (".")) :=
            List.mem_filter.mpr ⟨ht, hrel⟩
          obtain ⟨r, _, hr⟩ := addRefAll_ok_forall himp t htf
          exact (addReference_ok_props hr).2.1

/-- C4: a reference whose text, joined against the referencing file's
directory and normalized, begins with a parent-directory segment is a
hard error — a single-entry package whose entry file carries such a
`<reference path>` target (the first offending one) makes `getModuleInfo`
fail with the IllegalParentReference error; and no file recorded by a
successful graph resolution has any escaping path reference or any
relative import target. -/
theorem c4_illegal_parent_reference :
    (∀ (fs : FS) (packageName directory e : String) (fd : FileData)
      (l1 : List String) (t : String) (l2 : List String),
      fsLookup fs e = some fd →
      fd.referencedFiles = l1 ++ t :: l2 →
      (∀ x ∈ l1, ∃ r, addReference directory e (pathDirname e) true x = .ok r) →
      hasWindowsSlashes t = false →
      strStartsWith (normalizeSlashes (pathNormalize (joinPaths (pathDirname e) t))) ("..")
        = true →
      getModuleInfo packageName directory fs [e] =
        .error ⟨.illegalParentReference,
          "In " ++ directory ++ " " ++ e ++
            ": Definitions must use global references to other packages, not parent (\"../xxx\") references.(Based on reference " ++
            t ++ ")", []⟩) ∧
    (∀ (fs : FS) (directory : String) (entries : List String) (m : List (String × FileData)),
      allReferencedFiles fs directory entries = .ok m →
      ∀ kv ∈ m,
        (∀ t ∈ kv.2.referencedFiles,
          strStartsWith (normalizeSlashes (pathNormalize (joinPaths (pathDirname kv.1) t))) ("..")
            = false) ∧
        (∀ imps, importsList kv.2.statements = .ok imps →
          ∀ t ∈ imps, strStartsWith t (".") = true →
            strStartsWith (normalizeSlashes (pathNormalize (joinPaths (pathDirname kv.1) t)))
              ("..") = false)) := by
  constructor
  · intro fs packageName directory e fd l1 t l2 hlook hrefs hok hwin hesc
    have herr := @addReference_error_of_escape directory e (pathDirname e) true t hwin hesc
    have hall : addRefAll directory e (pathDirname e) true fd.referencedFiles =
        .error ⟨.illegalParentReference,
          "In " ++ directory ++ " " ++ e ++
            ": Definitions must use global references to other packages, not parent (\"../xxx\") references.(Based on reference " ++
            t ++ ")", []⟩ := by
      rw [hrefs]
      exact addRefAll_error_first l1 l2 hok herr
    have hrf := referencedFilesIn_error_pathRefs hall
    have hread : readFileAndThrowOnBOM fs directory e = .ok fd := by
      unfold readFileAndThrowOnBOM
      rw [hlook]
    have hrep : readFileAndReportErrors fs ("tsconfig.json") directory e e = .ok fd := by
      unfold readFileAndReportErrors
      rw [hread]
    have hres : resolveRef fs directory ("tsconfig.json") ⟨true, e⟩ = .ok (e, fd) := by
      unfold resolveRef
      simp only [if_true]
      rw [hrep]
    have hpos : 0 < traversalFuel directory fs [e] := Nat.succ_pos _
    have hfuel : traversalFuel directory fs [e] = (traversalFuel directory fs [e] - 1) + 1 :=
      (Nat.succ_pred_eq_of_pos hpos).symm
    have hgo := @goRef_step_error fs directory ("tsconfig.json") ⟨true, e⟩
      (traversalFuel directory fs [e] - 1) [] [] [] e fd _ (by simp) hres hrf
    unfold getModuleInfo
    unfold allReferencedFiles initWork
    simp only [List.map]
    rw [hfuel, hgo]
  · intro fs directory entries m h kv hkv
    unfold allReferencedFiles at h
    exact goRef_ok_forall
      (fun kv => (∀ t ∈ kv.2.referencedFiles,
          strStartsWith (normalizeSlashes (pathNormalize (joinPaths (pathDirname kv.1) t))) ("..")
            = false) ∧
        (∀ imps, importsList kv.2.statements = .ok imps →
          ∀ t ∈ imps, strStartsWith t (".") = true →
            strStartsWith (normalizeSlashes (pathNormalize (joinPaths (pathDirname kv.1) t)))
              ("..") = false))
      (fun fn fd refs hrefs => referencedFilesIn_ok_no_escape hrefs)
      _ _ _ _ _ h (fun kv h2 => by cases h2) kv hkv

/-- C4, witness: `c4_illegal_parent_reference` on the package whose entry
file references `../x.d.ts`, and on the successfully resolved cyclic
package. -/
theorem c4_witness :
    fsLookup parentRefFs ("index.d.ts") = some parentRefFile ∧
    parentRefFile.referencedFiles = [] ++ "../x.d.ts" :: [] ∧
    hasWindowsSlashes ("../x.d.ts") = false ∧
    strStartsWith
      (normalizeSlashes (pathNormalize (joinPaths (pathDirname ("index.d.ts")) ("../x.d.ts"))))
      ("..") = true ∧
    getModuleInfo ("pkg") ("types/pkg") parentRefFs ["index.d.ts"] =
      .error ⟨.illegalParentReference,
        "In " ++ "types/pkg" ++ " " ++ "index.d.ts" ++
          ": Definitions must use global references to other packages, not parent (\"../xxx\") references.(Based on reference " ++
          "../x.d.ts" ++ ")", []⟩ ∧
    allReferencedFiles cycFs ("types/pkg") ["a.d.ts"] =
      .ok [("a.d.ts", cycFileA), ("b.d.ts", cycFileB)] ∧
    (∀ kv ∈ [("a.d.ts", cycFileA), ("b.d.ts", cycFileB)],
      (∀ t ∈ kv.2.referencedFiles,
        strStartsWith (normalizeSlashes (pathNormalize (joinPaths (pathDirname kv.1) t))) ("..")
          = false) ∧
      (∀ imps, importsList kv.2.statements = .ok imps →
        ∀ t ∈ imps, strStartsWith t (".") = true →
          strStartsWith (normalizeSlashes (pathNormalize (joinPaths (pathDirname kv.1) t)))
            ("..") = false)) := by
  refine ⟨rfl, rfl, by decide, by decide, ?_, rfl, ?_⟩
  · exact c4_illegal_parent_reference.1 parentRefFs ("pkg") ("types/pkg") ("index.d.ts")
      parentRefFile [] ("../x.d.ts") [] rfl rfl (by intro x hx; cases hx) (by decide) (by decide)
  · exact c4_illegal_parent_reference.2 cycFs ("types/pkg") ["a.d.ts"]
      [("a.d.ts", cycFileA), ("b.d.ts", cycFileB)] rfl

/-! ## C1: the resolved file set

The referencing-file name flows only into error reports, so successful
resolution and successful reference drains are independent of it; the
lemmas below transfer results between referencing-file names, tie every
resolved file back to the file system, and bound the traversal by the
finite candidate universe. -/

/-- A successful read is independent of the reporting context. -/
theorem readFileAndReportErrors_ok_transfer {fs : FS} {a b directory ta tb fileName : String}
    {fd : FileData} (h : readFileAndReportErrors fs a directory ta fileName = .ok fd) :
    readFileAndReportErrors fs b directory tb fileName = .ok fd := by
  unfold readFileAndReportErrors at h ⊢
  cases h1 : readFileAndThrowOnBOM fs directory fileName with
  | ok content =>
    rw [h1] at h
    exact h
  | error e =>
    rw [h1] at h
    cases h

/-- A successful report-wrapped read is a file-system hit. -/
theorem readFileAndThrowOnBOM_ok_lookup {fs : FS} {directory fileName : String} {fd : FileData}
    (h : readFileAndThrowOnBOM fs directory fileName = .ok fd) :
    fsLookup fs fileName = some fd := by
  unfold readFileAndThrowOnBOM at h
  split at h
  · next h2 =>
    cases h
    exact h2
  · cases h

/-- A successful reported read is a file-system hit. -/
theorem readFileAndReportErrors_ok_lookup {fs : FS} {referencedFrom directory t fileName : String}
    {fd : FileData} (h : readFileAndReportErrors fs referencedFrom directory t fileName = .ok fd) :
    fsLookup fs fileName = some fd := by
  unfold readFileAndReportErrors at h
  cases h1 : readFileAndThrowOnBOM fs directory fileName with
  | ok content =>
    rw [h1] at h
    cases h
    exact readFileAndThrowOnBOM_ok_lookup h1
  | error e =>
    rw [h1] at h
    cases h

/-- A successful `resolveModule` is independent of the referencing
file. -/
theorem resolveModule_ok_transfer {fs : FS} {a b directory filename : String}
    {v : String × FileData} (h : resolveModule fs a directory filename = .ok v) :
    resolveModule fs b directory filename = .ok v := by
  unfold resolveModule at h ⊢
  dsimp only at h ⊢
  cases h1 : readFileAndThrowOnBOM fs directory (filename ++ ".d.ts") with
  | ok content =>
    rw [h1] at h
    exact h
  | error e =>
    rw [h1] at h
    cases h3 : readFileAndReportErrors fs a directory filename
        (joinPaths (if strEndsWith filename ("/") then strDropRight filename 1 else filename)
          ("index.d.ts")) with
    | ok content =>
      rw [h3] at h
      rw [@readFileAndReportErrors_ok_transfer fs a b directory filename filename _ _ h3]
      exact h
    | error e2 =>
      rw [h3] at h
      cases h

/-- A successful `resolveRef` is independent of the referencing file. -/
theorem resolveRef_ok_transfer {fs : FS} {directory a b : String} {r : Reference}
    {v : String × FileData} (h : resolveRef fs directory a r = .ok v) :
    resolveRef fs directory b r = .ok v := by
  unfold resolveRef at h ⊢
  by_cases hx : r.exact
  · rw [if_pos hx] at h ⊢
    cases h2 : readFileAndReportErrors fs a directory r.text r.text with
    | ok content =>
      rw [h2] at h
      rw [@readFileAndReportErrors_ok_transfer fs a b directory r.text r.text _ _ h2]
      exact h
    | error e =>
      rw [h2] at h
      cases h
  · rw [if_neg hx] at h ⊢
    exact resolveModule_ok_transfer h

/-- `addReference` succeeds outright on a clean target. -/
theorem addReference_ok_of {directory srcFileName subDirectory : String} {exact : Bool}
    {text : String} (hwin : hasWindowsSlashes text = false)
    (hesc : strStartsWith (normalizeSlashes (pathNormalize (joinPaths subDirectory text))) ("..")
      = false) :
    addReference directory srcFileName subDirectory exact text =
      .ok ⟨exact, normalizeSlashes (pathNormalize (joinPaths subDirectory text))⟩ := by
  have ha : assertNoWindowsSlashes srcFileName text = .ok text := by
    unfold assertNoWindowsSlashes
    rw [hwin]
    simp
  unfold addReference
  rw [ha]
  dsimp only
  rw [hesc]
  simp

/-- A successful `addReference` is independent of the referencing-file
name used in its error messages. -/
theorem addReference_ok_transfer {directory a b subDirectory : String} {exact : Bool}
    {text : String} {r : Reference}
    (h : addReference directory a subDirectory exact text = .ok r) :
    addReference directory b subDirectory exact text = .ok r := by
  obtain ⟨hwin, hesc, rfl⟩ := addReference_ok_props h
  exact addReference_ok_of hwin hesc

/-- A successful `addRefAll` is independent of the referencing-file
name. -/
theorem addRefAll_ok_transfer {directory a b subDirectory : String} {exact : Bool} :
    ∀ {l : List String} {rs : List Reference},
      addRefAll directory a subDirectory exact l = .ok rs →
      addRefAll directory b subDirectory exact l = .ok rs := by
  intro l
  induction l with
  | nil =>
    intro rs h
    cases h
    rfl
  | cons x rest ih =>
    intro rs h
    unfold addRefAll at h ⊢
    cases hr : addReference directory a subDirectory exact x with
    | error e =>
      rw [hr] at h
      cases h
    | ok r =>
      rw [hr] at h
      rw [addReference_ok_transfer (b := b) hr]
      cases hrs : addRefAll directory a subDirectory exact rest with
      | error e =>
        rw [hrs] at h
        cases h
      | ok rs2 =>
        rw [hrs] at h
        rw [ih hrs]
        exact h

/-- A successful reference drain is independent of the referencing-file
name. -/
theorem referencedFilesIn_ok_transfer {directory subDirectory a b : String} {fd : FileData}
    {refs : List Reference} (h : referencedFilesIn directory subDirectory a fd = .ok refs) :
    referencedFilesIn directory subDirectory b fd = .ok refs := by
  unfold referencedFilesIn at h ⊢
  cases hpath : addRefAll directory a subDirectory true fd.referencedFiles with
  | error e =>
    rw [hpath] at h
    cases h
  | ok pathRefs =>
    rw [hpath] at h
    rw [addRefAll_ok_transfer (b := b) hpath]
    dsimp only at h ⊢
    cases himps : importsList fd.statements with
    | error e =>
      rw [himps] at h
      cases h
    | ok imps =>
      rw [himps] at h
      dsimp only at h ⊢
      cases himp : addRefAll directory a subDirectory false
          (imps.filter (fun ref => strStartsWith ref ("."))) with
      | error e =>
        rw [himp] at h
        cases h
      | ok importRefs =>
        rw [himp] at h
        rw [addRefAll_ok_transfer (b := b) himp]
        exact h

/-- A hit of the association-list lookup is a member of the file
system. -/
theorem fsLookup_mem : ∀ {fs : FS} {k : String} {fd : FileData},
    fsLookup fs k = some fd → (k, fd) ∈ fs := by
  intro fs
  induction fs with
  | nil =>
    intro k fd h
    cases h
  | cons kv rest ih =>
    obtain ⟨k0, v0⟩ := kv
    intro k fd h
    unfold fsLookup at h
    split at h
    · next heq =>
      cases h
      subst heq
      exact List.mem_cons_self _ _
    · exact List.mem_cons_of_mem _ (ih h)

/-- Every successfully resolved reference reads a file of the file
system, and its resolved filename sits in the same directory as that
file's key. -/
theorem resolveRef_shape {fs : FS} {directory referencedFrom : String} {r : Reference}
    {fn : String} {fd : FileData}
    (h : resolveRef fs directory referencedFrom r = .ok (fn, fd)) :
    ∃ k, fsLookup fs k = some fd ∧ pathDirname fn = pathDirname k := by
  unfold resolveRef at h
  by_cases hx : r.exact
  · rw [if_pos hx] at h
    cases h2 : readFileAndReportErrors fs referencedFrom directory r.text r.text with
    | ok content =>
      rw [h2] at h
      cases h
      exact ⟨r.text, readFileAndReportErrors_ok_lookup h2, rfl⟩
    | error e =>
      rw [h2] at h
      cases h
  · rw [if_neg hx] at h
    unfold resolveModule at h
    dsimp only at h
    cases h1 : readFileAndThrowOnBOM fs directory (r.text ++ ".d.ts") with
    | ok content =>
      rw [h1] at h
      cases h
      exact ⟨r.text ++ ".d.ts", readFileAndThrowOnBOM_ok_lookup h1, rfl⟩
    | error e =>
      rw [h1] at h
      cases h3 : readFileAndReportErrors fs referencedFrom directory r.text
          (joinPaths (if strEndsWith r.text ("/") then strDropRight r.text 1 else r.text)
            ("index.d.ts")) with
      | ok content =>
        rw [h3] at h
        cases h
        refine ⟨joinPaths (if strEndsWith r.text ("/") then strDropRight r.text 1 else r.text)
          ("index.d.ts"), readFileAndReportErrors_ok_lookup h3, ?_⟩
        by_cases hidx : joinPaths
            (if strEndsWith r.text ("/") then strDropRight r.text 1 else r.text) ("index.d.ts") =
            "./index.d.ts"
        · rw [if_pos hidx, hidx]
          decide
        · rw [if_neg hidx]
      | error e2 =>
        rw [h3] at h
        cases h

/-- The references drained for a resolved file are exactly the candidate
references of a file of the file system. -/
theorem resolved_refs_candidates {fs : FS} {directory referencedFrom : String} {r : Reference}
    {fn : String} {fd : FileData} {refs : List Reference}
    (hres : resolveRef fs directory referencedFrom r = .ok (fn, fd))
    (hrefs : referencedFilesIn directory (pathDirname fn) fn fd = .ok refs) :
    ∃ kv, kv ∈ fs ∧ kv.2 = fd ∧ fileCandidateRefs directory kv = refs := by
  obtain ⟨k, hk, hdir⟩ := resolveRef_shape hres
  refine ⟨(k, fd), fsLookup_mem hk, rfl, ?_⟩
  unfold fileCandidateRefs
  rw [show pathDirname (k, fd).1 = pathDirname fn from hdir.symm]
  rw [referencedFilesIn_ok_transfer (b := k) hrefs]

/-- Every reachable reference is a candidate reference. -/
theorem reachRef_mem_candidates {fs : FS} {directory : String} {entries : List String} :
    ∀ {r : Reference}, ReachRef fs directory entries r →
      r ∈ allCandidateRefs directory fs entries := by
  intro r h
  induction h with
  | entry hf =>
    apply List.mem_append_left
    unfold initWork
    rw [List.map_map]
    exact List.mem_map.mpr ⟨_, hf, rfl⟩
  | step hr hres hrefs hmem ih =>
    apply List.mem_append_right
    obtain ⟨kv, hkv, _, hfc⟩ := resolved_refs_candidates hres hrefs
    exact List.mem_flatMap.mpr ⟨kv, hkv, hfc ▸ hmem⟩

/-- Keys of the result map after `Map.set`. -/
theorem keys_mapSet : ∀ (all : List (String × FileData)) (fn : String) (fd : FileData)
    (fn2 : String),
    fn2 ∈ (mapSet all fn fd).map Prod.fst ↔ fn2 = fn ∨ fn2 ∈ all.map Prod.fst := by
  intro all
  induction all with
  | nil =>
    intro fn fd fn2
    unfold mapSet
    simp
  | cons kv rest ih =>
    intro fn fd fn2
    unfold mapSet
    split
    · next heq =>
      subst heq
      simp
    · next hne =>
      simp only [List.map_cons, List.mem_cons]
      rw [ih fn fd fn2]
      constructor
      · rintro (h | h | h)
        · exact .inr (.inl h)
        · exact .inl h
        · exact .inr (.inr h)
      · rintro (h | h | h)
        · exact .inr (.inl h)
        · exact .inl h
        · exact .inr (.inr h)

/-- `Map.set` keeps the keys duplicate-free. -/
theorem keys_mapSet_nodup : ∀ (all : List (String × FileData)) (fn : String) (fd : FileData),
    (all.map Prod.fst).Nodup → ((mapSet all fn fd).map Prod.fst).Nodup := by
  intro all
  induction all with
  | nil =>
    intro fn fd h
    unfold mapSet
    simp
  | cons kv rest ih =>
    intro fn fd h
    simp only [List.map_cons, List.nodup_cons] at h
    unfold mapSet
    split
    · next heq =>
      subst heq
      simp only [List.map_cons, List.nodup_cons]
      exact h
    · next hne =>
      simp only [List.map_cons, List.nodup_cons]
      refine ⟨?_, ih fn fd h.2⟩
      intro hmem
      rcases (keys_mapSet rest fn fd kv.1).mp hmem with h2 | h2
      · exact hne h2
      · exact h.1 h2

/-- Each piece of a flat map is no longer than the whole. -/
theorem length_le_flatMap {α β : Type} (f : α → List β) :
    ∀ (l : List α) (x : α), x ∈ l → (f x).length ≤ (l.flatMap f).length := by
  intro l
  induction l with
  | nil =>
    intro x hx
    cases hx
  | cons y rest ih =>
    intro x hx
    rw [List.flatMap_cons, List.length_append]
    rcases List.mem_cons.mp hx with rfl | hx2
    · exact Nat.le_add_right _ _
    · exact Nat.le_trans (ih x hx2) (Nat.le_add_left _ _)

/-- A fresh text from the universe bounds the seen set strictly below
the universe's distinct-text count. -/
theorem seen_lt_dedup {seen u : List String} (hnd : seen.Nodup)
    (hsub : ∀ t ∈ seen, t ∈ u) {t : String} (ht : t ∈ u) (htn : t ∉ seen) :
    seen.length < u.dedup.length := by
  have h1 : (t :: seen).Nodup := List.nodup_cons.mpr ⟨htn, hnd⟩
  have h2 : ∀ x ∈ t :: seen, x ∈ u := by
    intro x hx
    rcases List.mem_cons.mp hx with rfl | hx2
    · exact ht
    · exact hsub x hx2
  have h3 : (t :: seen).toFinset.card = (t :: seen).length := List.toFinset_card_of_nodup h1
  have h4 : (t :: seen).toFinset ⊆ u.toFinset := by
    intro x hx
    exact List.mem_toFinset.mpr (h2 x (List.mem_toFinset.mp hx))
  have h5 := Finset.card_le_card h4
  have h6 : u.toFinset.card = u.dedup.length := List.card_toFinset u
  simp only [List.length_cons] at h3
  omega

/-- The master invariant of the worklist traversal: when every candidate
reference resolves, every file drains, and no two candidate references
share a text without being equal, the loop succeeds, and its keys are
the resolutions of the final seen set, which is reachable-sound, closed
under the reference step, and contains every entry. -/
theorem goRef_master {fs : FS} {directory : String} {entries : List String}
    (hres : ∀ r ∈ allCandidateRefs directory fs entries,
      ∃ fn fd, resolveRef fs directory ("tsconfig.json") r = .ok (fn, fd))
    (hext : ∀ kv ∈ fs, ∃ refs,
      referencedFilesIn directory (pathDirname kv.1) kv.1 kv.2 = .ok refs)
    (hnc : ∀ r1 ∈ allCandidateRefs directory fs entries,
      ∀ r2 ∈ allCandidateRefs directory fs entries, r1.text = r2.text → r1 = r2) :
    ∀ (fuel : Nat) (seen : List String) (all : List (String × FileData)) (work : List WorkItem),
      (∀ t ∈ seen, ∃ r, r ∈ allCandidateRefs directory fs entries ∧
        ReachRef fs directory entries r ∧ r.text = t) →
      seen.Nodup →
      (∀ it ∈ work, it.2 ∈ allCandidateRefs directory fs entries ∧
        ReachRef fs directory entries it.2) →
      (∀ fn, fn ∈ all.map Prod.fst ↔ ∃ r fd, ReachRef fs directory entries r ∧
        r.text ∈ seen ∧ resolveRef fs directory ("tsconfig.json") r = .ok (fn, fd)) →
      (all.map Prod.fst).Nodup →
      (∀ r, ReachRef fs directory entries r → r.text ∈ seen →
        ∀ fn fd refs, resolveRef fs directory ("tsconfig.json") r = .ok (fn, fd) →
          referencedFilesIn directory (pathDirname fn) fn fd = .ok refs →
          ∀ r2 ∈ refs, r2.text ∈ seen ∨ r2 ∈ work.map (fun it => it.2)) →
      (∀ f ∈ entries, f ∈ seen ∨ (⟨true, f⟩ : Reference) ∈ work.map (fun it => it.2)) →
      (((allCandidateRefs directory fs entries).map (fun r => r.text)).dedup.length
          - seen.length) *
        (((allCandidateRefs directory fs entries).map (fun r => r.text)).length + 1) +
        work.length ≤ fuel →
      ∃ (m : List (String × FileData)) (seenF : List String),
        goRef fs directory fuel seen all work = .ok m ∧
        (m.map Prod.fst).Nodup ∧
        (∀ t ∈ seenF, ∃ r, r ∈ allCandidateRefs directory fs entries ∧
          ReachRef fs directory entries r ∧ r.text = t) ∧
        (∀ fn, fn ∈ m.map Prod.fst ↔ ∃ r fd, ReachRef fs directory entries r ∧
          r.text ∈ seenF ∧ resolveRef fs directory ("tsconfig.json") r = .ok (fn, fd)) ∧
        (∀ r, ReachRef fs directory entries r → r.text ∈ seenF →
          ∀ fn fd refs, resolveRef fs directory ("tsconfig.json") r = .ok (fn, fd) →
            referencedFilesIn directory (pathDirname fn) fn fd = .ok refs →
            ∀ r2 ∈ refs, r2.text ∈ seenF) ∧
        (∀ f ∈ entries, f ∈ seenF) := by
  intro fuel
  induction fuel with
  | zero =>
    intro seen all work hseen1 hseen2 hwork hkeys hnodup hclosed hent hfuel
    cases work with
    | nil =>
      refine ⟨all, seen, rfl, hnodup, hseen1, hkeys, ?_, ?_⟩
      · intro r hr ht fn fd refs h1 h2 r2 hr2
        rcases hclosed r hr ht fn fd refs h1 h2 r2 hr2 with h | h
        · exact h
        · simp at h
      · intro f hf
        rcases hent f hf with h | h
        · exact h
        · simp at h
    | cons it rest =>
      exfalso
      simp only [List.length_cons] at hfuel
      omega
  | succ fuel ih =>
    intro seen all work hseen1 hseen2 hwork hkeys hnodup hclosed hent hfuel
    cases work with
    | nil =>
      refine ⟨all, seen, rfl, hnodup, hseen1, hkeys, ?_, ?_⟩
      · intro r hr ht fn fd refs h1 h2 r2 hr2
        rcases hclosed r hr ht fn fd refs h1 h2 r2 hr2 with h | h
        · exact h
        · simp at h
      · intro f hf
        rcases hent f hf with h | h
        · exact h
        · simp at h
    | cons it rest =>
      obtain ⟨referencedFrom, r⟩ := it
      by_cases hmem : r.text ∈ seen
      · have hgo : goRef fs directory (fuel + 1) seen all ((referencedFrom, r) :: rest) =
            goRef fs directory fuel seen all rest := by
          conv_lhs => unfold goRef
          rw [if_pos hmem]
        rw [hgo]
        refine ih seen all rest hseen1 hseen2
          (fun it2 h2 => hwork it2 (List.mem_cons_of_mem _ h2)) hkeys hnodup ?_ ?_ ?_
        · intro r1 hr1 ht1 fn fd refs h1 h2 r2 hr2
          rcases hclosed r1 hr1 ht1 fn fd refs h1 h2 r2 hr2 with h | h
          · exact .inl h
          · simp only [List.map_cons, List.mem_cons] at h
            rcases h with h | h
            · exact .inl (h ▸ hmem)
            · exact .inr h
        · intro f hf
          rcases hent f hf with h | h
          · exact .inl h
          · simp only [List.map_cons, List.mem_cons] at h
            rcases h with h | h
            · refine .inl ?_
              have h2 : r.text = f := by rw [← h]
              rw [← h2]
              exact hmem
            · exact .inr h
        · simp only [List.length_cons] at hfuel
          omega
      · obtain ⟨hcand, hreach⟩ := hwork (referencedFrom, r) (by simp)
        obtain ⟨fn, fd, hresD⟩ := hres r hcand
        have hresF : resolveRef fs directory referencedFrom r = .ok (fn, fd) :=
          resolveRef_ok_transfer hresD
        obtain ⟨k, hk, hdir⟩ := resolveRef_shape hresD
        obtain ⟨refs0, hrefs0⟩ := hext (k, fd) (fsLookup_mem hk)
        have hrefsF : referencedFilesIn directory (pathDirname fn) fn fd = .ok refs0 := by
          rw [show pathDirname fn = pathDirname (k, fd).1 from hdir]
          exact referencedFilesIn_ok_transfer hrefs0
        have hfc : fileCandidateRefs directory (k, fd) = refs0 := by
          unfold fileCandidateRefs
          rw [hrefs0]
        have hgo : goRef fs directory (fuel + 1) seen all ((referencedFrom, r) :: rest) =
            goRef fs directory fuel (r.text :: seen) (mapSet all fn fd)
              (refs0.map (fun ref => (fn, ref)) ++ rest) := by
          conv_lhs => unfold goRef
          rw [if_neg hmem, hresF]
          dsimp only
          rw [hrefsF]
        rw [hgo]
        have hpushcand : ∀ r2 ∈ refs0, r2 ∈ allCandidateRefs directory fs entries := by
          intro r2 h2
          exact List.mem_append_right _
            (List.mem_flatMap.mpr ⟨(k, fd), fsLookup_mem hk, hfc ▸ h2⟩)
        have hpushreach : ∀ r2 ∈ refs0, ReachRef fs directory entries r2 := by
          intro r2 h2
          exact .step hreach hresD hrefsF h2
        refine ih (r.text :: seen) (mapSet all fn fd)
          (refs0.map (fun ref => (fn, ref)) ++ rest) ?_ ?_ ?_ ?_ ?_ ?_ ?_ ?_
        · intro t ht
          rcases List.mem_cons.mp ht with rfl | ht2
          · exact ⟨r, hcand, hreach, rfl⟩
          · exact hseen1 t ht2
        · exact List.nodup_cons.mpr ⟨hmem, hseen2⟩
        · intro it2 h2
          rcases List.mem_append.mp h2 with h3 | h3
          · obtain ⟨r2, hr2, rfl⟩ := List.mem_map.mp h3
            exact ⟨hpushcand r2 hr2, hpushreach r2 hr2⟩
          · exact hwork it2 (List.mem_cons_of_mem _ h3)
        · intro fn2
          rw [keys_mapSet]
          constructor
          · rintro (rfl | h2)
            · exact ⟨r, fd, hreach, List.mem_cons_self _ _, hresD⟩
            · obtain ⟨r2, fd2, hre2, ht2, hrs2⟩ := (hkeys fn2).mp h2
              exact ⟨r2, fd2, hre2, List.mem_cons_of_mem _ ht2, hrs2⟩
          · rintro ⟨r2, fd2, hre2, ht2, hrs2⟩
            rcases List.mem_cons.mp ht2 with hteq | ht3
            · have hc2 := reachRef_mem_candidates hre2
              have heq2 : r2 = r := hnc r2 hc2 r hcand hteq
              subst heq2
              rw [hresD] at hrs2
              cases hrs2
              exact .inl rfl
            · exact .inr ((hkeys fn2).mpr ⟨r2, fd2, hre2, ht3, hrs2⟩)
        · exact keys_mapSet_nodup all fn fd hnodup
        · intro r1 hre1 ht1 fn1 fd1 refs1 hrs1 hrf1 r2 hr2
          rcases List.mem_cons.mp ht1 with hteq | ht2
          · have hc1 := reachRef_mem_candidates hre1
            have heq1 : r1 = r := hnc r1 hc1 r hcand hteq
            subst heq1
            rw [hresD] at hrs1
            cases hrs1
            rw [hrefsF] at hrf1
            cases hrf1
            refine .inr ?_
            rw [List.map_append, List.map_map]
            exact List.mem_append_left _ (List.mem_map.mpr ⟨r2, hr2, rfl⟩)
          · rcases hclosed r1 hre1 ht2 fn1 fd1 refs1 hrs1 hrf1 r2 hr2 with h | h
            · exact .inl (List.mem_cons_of_mem _ h)
            · simp only [List.map_cons, List.mem_cons] at h
              rcases h with h | h
              · exact .inl (h ▸ List.mem_cons_self _ _)
              · refine .inr ?_
                rw [List.map_append]
                exact List.mem_append_right _ h
        · intro f hf
          rcases hent f hf with h | h
          · exact .inl (List.mem_cons_of_mem _ h)
          · simp only [List.map_cons, List.mem_cons] at h
            rcases h with h | h
            · refine .inl ?_
              have h2 : r.text = f := by rw [← h]
              rw [← h2]
              exact List.mem_cons_self _ _
            · refine .inr ?_
              rw [List.map_append]
              exact List.mem_append_right _ h
        · have hlen : refs0.length ≤ (allCandidateRefs directory fs entries).length := by
            calc refs0.length = (fileCandidateRefs directory (k, fd)).length := by rw [hfc]
              _ ≤ (fs.flatMap (fileCandidateRefs directory)).length :=
                length_le_flatMap _ fs (k, fd) (fsLookup_mem hk)
              _ ≤ (allCandidateRefs directory fs entries).length := by
                unfold allCandidateRefs
                rw [List.length_append]
                omega
          have hseensub : ∀ t ∈ seen,
              t ∈ (allCandidateRefs directory fs entries).map (fun r => r.text) := by
            intro t ht
            obtain ⟨r2, hc2, _, rfl⟩ := hseen1 t ht
            exact List.mem_map.mpr ⟨r2, hc2, rfl⟩
          have htU : r.text ∈ (allCandidateRefs directory fs entries).map (fun r => r.text) :=
            List.mem_map.mpr ⟨r, hcand, rfl⟩
          have hlt := seen_lt_dedup hseen2 hseensub htU hmem
          simp only [List.length_append, List.length_map, List.length_cons] at hfuel ⊢
          have h1 : ((allCandidateRefs directory fs entries).map (fun r => r.text)).dedup.length
              - seen.length =
              (((allCandidateRefs directory fs entries).map (fun r => r.text)).dedup.length
                - (seen.length + 1)) + 1 := by
            omega
          have h2 : (((allCandidateRefs directory fs entries).map (fun r => r.text)).dedup.length
              - seen.length) *
              ((allCandidateRefs directory fs entries).length + 1) =
              (((allCandidateRefs directory fs entries).map (fun r => r.text)).dedup.length
                - (seen.length + 1)) *
              ((allCandidateRefs directory fs entries).length + 1) +
              ((allCandidateRefs directory fs entries).length + 1) := by
            rw [h1, Nat.succ_mul]
          omega

/-- C1 (amended): for a package in which every candidate reference
resolves, every file's references drain without error, and no two
candidate references share a normalized text without being equal (the
text-dedup assumption the seen-set needs), `allReferencedFiles`
terminates successfully — also under cyclic references — and the key set
of the returned map is exactly the set of resolved filenames of the
references transitively reachable from the entry files, each key
appearing exactly once. -/
theorem c1_allReferencedFiles {fs : FS} {directory : String} {entries : List String}
    (hres : ∀ r ∈ allCandidateRefs directory fs entries,
      (resolveRef fs directory ("tsconfig.json") r).isOk = true)
    (hext : ∀ kv ∈ fs,
      (referencedFilesIn directory (pathDirname kv.1) kv.1 kv.2).isOk = true)
    (hnc : ∀ r1 ∈ allCandidateRefs directory fs entries,
      ∀ r2 ∈ allCandidateRefs directory fs entries, r1.text = r2.text → r1 = r2) :
    ∃ m, allReferencedFiles fs directory entries = .ok m ∧
      (m.map Prod.fst).Nodup ∧
      ∀ fn, fn ∈ m.map Prod.fst ↔ ∃ r fd, ReachRef fs directory entries r ∧
        resolveRef fs directory ("tsconfig.json") r = .ok (fn, fd) := by
  have hres' : ∀ r ∈ allCandidateRefs directory fs entries,
      ∃ fn fd, resolveRef fs directory ("tsconfig.json") r = .ok (fn, fd) := by
    intro r hr
    have h := hres r hr
    cases hcase : resolveRef fs directory ("tsconfig.json") r with
    | error e => rw [hcase] at h; simp [Except.isOk, Except.toBool] at h
    | ok p =>
      obtain ⟨fn, fd⟩ := p
      exact ⟨fn, fd, rfl⟩
  have hext' : ∀ kv ∈ fs, ∃ refs,
      referencedFilesIn directory (pathDirname kv.1) kv.1 kv.2 = .ok refs := by
    intro kv hkv
    have h := hext kv hkv
    cases hcase : referencedFilesIn directory (pathDirname kv.1) kv.1 kv.2 with
    | error e => rw [hcase] at h; simp [Except.isOk, Except.toBool] at h
    | ok refs => exact ⟨refs, rfl⟩
  have hC : ∀ it ∈ initWork entries, it.2 ∈ allCandidateRefs directory fs entries ∧
      ReachRef fs directory entries it.2 := by
    intro it hit
    simp only [initWork, List.mem_map] at hit
    obtain ⟨f, hf, rfl⟩ := hit
    refine ⟨?_, .entry hf⟩
    unfold allCandidateRefs
    refine List.mem_append_left _ ?_
    simp only [initWork, List.map_map, List.mem_map]
    exact ⟨f, hf, rfl⟩
  have hfuel0 : (((allCandidateRefs directory fs entries).map (fun r => r.text)).dedup.length
        - ([] : List String).length) *
      (((allCandidateRefs directory fs entries).map (fun r => r.text)).length + 1) +
      (initWork entries).length ≤ traversalFuel directory fs entries := by
    have htf : traversalFuel directory fs entries =
        ((allCandidateRefs directory fs entries).map (fun r => r.text)).dedup.length *
          (((allCandidateRefs directory fs entries).map (fun r => r.text)).length + 1) +
          entries.length + 1 := rfl
    have hiw : (initWork entries).length = entries.length := by
      unfold initWork
      rw [List.length_map]
    rw [htf, hiw]
    simp only [List.length_nil, Nat.sub_zero]
    omega
  obtain ⟨m, seenF, hgo, hnodupF, hseenF, hkeysF, hclosedF, hentF⟩ :=
    goRef_master hres' hext' hnc (traversalFuel directory fs entries) [] [] (initWork entries)
      (by intro t ht; simp at ht)
      List.nodup_nil
      hC
      (by
        intro fn
        constructor
        · intro h
          simp at h
        · rintro ⟨r, fd, _, ht, _⟩
          simp at ht)
      (by simp)
      (by intro r _ ht; simp at ht)
      (by
        intro f hf
        refine .inr ?_
        simp only [initWork, List.map_map, List.mem_map]
        exact ⟨f, hf, rfl⟩)
      hfuel0
  have hcomp : ∀ r, ReachRef fs directory entries r → r.text ∈ seenF := by
    intro r hr
    induction hr with
    | entry hf => exact hentF _ hf
    | step hr1 hres1 hrefs1 hmem1 ih =>
      exact hclosedF _ hr1 ih _ _ _ hres1 hrefs1 _ hmem1
  refine ⟨m, hgo, hnodupF, ?_⟩
  intro fn
  constructor
  · intro h
    obtain ⟨r, fd, hre, _, hok⟩ := (hkeysF fn).mp h
    exact ⟨r, fd, hre, hok⟩
  · rintro ⟨r, fd, hre, hok⟩
    exact (hkeysF fn).mpr ⟨r, fd, hre, hcomp r hre, hok⟩

/-- C1 counterexample to the unqualified claim: in `dupFs` the exact
path reference `b` and the relative import `./b` normalize to the same
text, so the seen-set dedup drops the import before resolution; the
reachable resolution `b.d.ts` of the import is missing from the returned
key set. -/
theorem c1_counterexample :
    allReferencedFiles dupFs ("pkg") ["index.d.ts"] =
      .ok [("index.d.ts", dupFileIndex), ("b", emptyScript)] ∧
    ReachRef dupFs ("pkg") ["index.d.ts"] ⟨false, "b"⟩ ∧
    resolveRef dupFs ("pkg") ("tsconfig.json") ⟨false, "b"⟩ = .ok ("b.d.ts", emptyScript) ∧
    "b.d.ts" ∉ ([("index.d.ts", dupFileIndex), ("b", emptyScript)].map Prod.fst) := by
  refine ⟨rfl, ?_, rfl, by decide⟩
  have h1 : ReachRef dupFs ("pkg") ["index.d.ts"] ⟨true, "index.d.ts"⟩ :=
    .entry (by decide)
  have h2 : resolveRef dupFs ("pkg") ("tsconfig.json") ⟨true, "index.d.ts"⟩ =
      .ok ("index.d.ts", dupFileIndex) := rfl
  have h3 : referencedFilesIn ("pkg") (pathDirname ("index.d.ts")) ("index.d.ts") dupFileIndex =
      .ok [⟨true, "b"⟩, ⟨false, "b"⟩] := rfl
  have h4 : (⟨false, "b"⟩ : Reference) ∈ [(⟨true, "b"⟩ : Reference), ⟨false, "b"⟩] := by decide
  exact .step h1 h2 h3 h4

/-- C1 witness: the cyclic two-file package satisfies the amended
hypotheses, so its traversal terminates with each reachable file exactly
once. -/
theorem c1_witness :
    ∃ m, allReferencedFiles cycFs ("types/pkg") ["a.d.ts"] = .ok m ∧
      (m.map Prod.fst).Nodup ∧
      ∀ fn, fn ∈ m.map Prod.fst ↔ ∃ r fd, ReachRef cycFs ("types/pkg") ["a.d.ts"] r ∧
        resolveRef cycFs ("types/pkg") ("tsconfig.json") r = .ok (fn, fd) :=
  c1_allReferencedFiles (by decide) (by decide) (by decide)
